import Mathlib

/-!
Verification of the EdgeLoopToSketch macro (src/Macros/EdgeLoopToSketch/EdgeLoopToSketch.py).

Shallow embedding conventions:
* 3D vectors are `Vec3` over `ℚ` (the source computes with IEEE doubles; we model the
  exact-real semantics of the same formulas).
* The source normalises vectors with `normalize()` (a square root) and compares
  normalised quantities against tolerances.  All such comparisons are carried here in an
  exactly equivalent squared, scale-corrected form over `ℚ`:
  `cross.Length > tol`  ⟺  `normSq cross > tol²`, and
  `abs((p - p0) · n̂) > tol` (with `n̂ = n/‖n‖`)  ⟺  `(dot (p - p0) n)² > tol² * normSq n`.
  A plane is therefore represented by its base point and an *unnormalised* normal.
* Python exceptions raised by the macro are modelled with `Except`; the distinct raise
  sites of the source are mapped to constructors of `FitError`.
* The host CAD API (`sketch.addGeometry`, `sketch.addConstraint`, ...) is modelled as
  pure state passing over a `Sketch` record; the possibility that the host raises on an
  `addConstraint` call is modelled by a failure oracle `fail : SkConstraint → Bool`
  passed to each constraint pass (the source catches such exceptions in exactly one of
  the four passes).
-/

/-- 3D vector over ℚ (embedding of `FreeCAD.Vector`). -/
structure Vec3 where
  x : ℚ
  y : ℚ
  z : ℚ
deriving DecidableEq, Repr

namespace Vec3

def add (a b : Vec3) : Vec3 := ⟨a.x + b.x, a.y + b.y, a.z + b.z⟩

def sub (a b : Vec3) : Vec3 := ⟨a.x - b.x, a.y - b.y, a.z - b.z⟩

instance : Add Vec3 := ⟨add⟩

instance : Sub Vec3 := ⟨sub⟩

def zero : Vec3 := ⟨0, 0, 0⟩

instance : Inhabited Vec3 := ⟨zero⟩

/-- Dot product. -/
def dot (a b : Vec3) : ℚ := a.x * b.x + a.y * b.y + a.z * b.z

/-- Cross product (`FreeCAD.Vector.cross`). -/
def cross (a b : Vec3) : Vec3 :=
  ⟨a.y * b.z - a.z * b.y, a.z * b.x - a.x * b.z, a.x * b.y - a.y * b.x⟩

/-- Squared Euclidean length (`v.Length ** 2`, kept squared to stay in ℚ). -/
def normSq (a : Vec3) : ℚ := a.x * a.x + a.y * a.y + a.z * a.z

/-- Squared distance between two points. -/
def distSq (a b : Vec3) : ℚ := normSq (a - b)

end Vec3

open Vec3

/-- The macro's length tolerance `1e-6`, squared (all length comparisons are squared). -/
def tolSq : ℚ := 1 / 1000000000000

/-- Errors raised inside `edge_loop_to_sketch` during plane fitting; each constructor is
one raise site of the source.  The spec's `PlanarityError` covers `planarityCollinear`
and `planarityNonCoplanar`; `insufficientData` covers the "not enough unique points"
and "not enough control points" messages; `unsupported` is `UnsupportedGeometryError`. -/
inductive FitError where
  /-- "do not provide enough unique points" / "does not have enough control points" -/
  | insufficientData
  /-- "are collinear and cannot define a plane" (edge points or spline poles) -/
  | planarityCollinear
  /-- "are not coplanar" / "is non-planar (3D curve)" -/
  | planarityNonCoplanar
  /-- "Single edge of type '...' cannot define a plane" -/
  | unsupported (curveType : String)
deriving DecidableEq, Repr

/-- Whether a fit error is one of the spec's `PlanarityError` kinds. -/
def FitError.isPlanarity : FitError → Bool
  | .planarityCollinear => true
  | .planarityNonCoplanar => true
  | _ => false

/-- Curve record of an edge (`edge.Curve` with `type(...).__name__` dispatch). -/
inductive Curve where
  | line
  | circle (center : Vec3) (axis : Vec3) (radius : ℚ)
  | bspline (poles : List Vec3) (knots : List ℚ) (mults : List ℕ) (degree : ℕ)
      (periodic : Bool)
  | other (name : String)

/-- Edge record: the attributes of a host edge that the macro reads.
`valueAt` is the host's curve evaluator `edge.valueAt`. -/
structure Edge where
  curve : Curve
  /-- `edge.Vertexes`, as the list of vertex points. -/
  vertexes : List Vec3
  /-- `edge.Length` (arc length, a host-computed scalar). -/
  length : ℚ
  /-- `edge.ParameterRange`. -/
  paramRange : ℚ × ℚ
  /-- `edge.valueAt`. -/
  valueAt : ℚ → Vec3

/-- A fitted plane: base point and (unnormalised) normal direction. -/
structure Plane where
  point : Vec3
  normal : Vec3
deriving DecidableEq, Repr

/-- One endpoint lies within the 1e-6 tolerance of the plane, in the squared,
scale-corrected form equivalent to `abs((p - p0) · n̂) ≤ 1e-6`. -/
def withinPlaneTol (p0 n p : Vec3) : Prop :=
  (dot (p - p0) n) ^ 2 ≤ tolSq * normSq n

instance (p0 n p : Vec3) : Decidable (withinPlaneTol p0 n p) := by
  unfold withinPlaneTol; infer_instance

/-- Boolean form of `withinPlaneTol`, used inside the executable fitters
(source: `distance = abs((pt - plane_point).dot(plane_normal)); distance > tolerance`). -/
def withinPlaneTolB (p0 n p : Vec3) : Bool :=
  decide ((dot (p - p0) n) ^ 2 ≤ tolSq * normSq n)

/-- Inner loop of the first-non-collinear-pair search: given `v1 = pts[i] - p0`, scan
the later points `j > i` for the first cross product longer than the tolerance
(source lines 70-75 and 112-117). -/
def findCross (p0 v1 : Vec3) : List Vec3 → Option Vec3
  | [] => none
  | q :: qs =>
      let c := cross v1 (q - p0)
      if tolSq < normSq c then some c else findCross p0 v1 qs

/-- Outer loop of the search: `i` ranges over the points after `p0` in order
(source lines 68-77 and 110-119).  Returns the first normal candidate. -/
def findNormalFrom (p0 : Vec3) : List Vec3 → Option Vec3
  | [] => none
  | q :: qs =>
      match findCross p0 (q - p0) qs with
      | some c => some c
      | none => findNormalFrom p0 qs

/-- One step of the tolerance-deduplication loop (source lines 97-102):
append `p` unless some already-kept point is within `1e-6` of it
(`pt.isEqual(existing, tolerance)` is distance ≤ tolerance). -/
def addUnique (uniq : List Vec3) (p : Vec3) : List Vec3 :=
  if uniq.any (fun q => decide (distSq p q ≤ tolSq)) then uniq else uniq ++ [p]

/-- The deduplicated point list, in first-seen order. -/
def uniquePoints (pts : List Vec3) : List Vec3 := pts.foldl addUnique []

/-- All edge endpoints, in edge order (`all_points`, source lines 97-100). -/
def allPoints (edges : List Edge) : List Vec3 := (edges.map Edge.vertexes).flatten

/-- Multi-edge plane fit (source lines 93-128): deduplicate the endpoints, require at
least 3 unique points, search the unique points for a first non-collinear pair, then
verify every (non-deduplicated) endpoint against the plane. -/
def fit_plane_multi (edges : List Edge) : Except FitError Plane :=
  let pts := allPoints edges
  let uniq := uniquePoints pts
  if uniq.length < 3 then .error .insufficientData
  else
    match uniq with
    | [] => .error .insufficientData
    | p0 :: rest =>
        match findNormalFrom p0 rest with
        | none => .error .planarityCollinear
        | some n =>
            if pts.all (fun pt => withinPlaneTolB p0 n pt) then .ok ⟨p0, n⟩
            else .error .planarityNonCoplanar

/-- Single-edge plane fit (source lines 47-90): a full circle defines the plane by its
own center and axis; a B-spline by its poles (first-non-collinear-pair search plus a
coplanarity check of every pole); any other curve kind cannot define a plane. -/
def fit_plane_single (e : Edge) : Except FitError Plane :=
  match e.curve with
  | .circle c ax _ => .ok ⟨c, ax⟩
  | .bspline poles _ _ _ _ =>
      if poles.length < 3 then .error .insufficientData
      else
        match poles with
        | [] => .error .insufficientData
        | p0 :: rest =>
            match findNormalFrom p0 rest with
            | none => .error .planarityCollinear
            | some n =>
                if poles.all (fun p => withinPlaneTolB p0 n p) then .ok ⟨p0, n⟩
                else .error .planarityNonCoplanar
  | .line => .error (.unsupported "Line")
  | .other name => .error (.unsupported name)

/-- Scalar multiple of a vector. -/
def Vec3.smul (c : ℚ) (v : Vec3) : Vec3 := ⟨c * v.x, c * v.y, c * v.z⟩

/-- Circumcenter of three points (the center the host computes when
`Part.ArcOfCircle(p1, pm, p2)` realizes a three-point arc).  For collinear inputs the
host constructor raises; the fallback value `p1` here is never relied on. -/
def circumcenter3 (a b c : Vec3) : Vec3 :=
  let u := b - a
  let v := c - a
  let w := cross u v
  let d := 2 * normSq w
  if d = 0 then a
  else a + Vec3.smul (1 / d) (Vec3.smul (normSq v) (cross w u) + Vec3.smul (normSq u) (cross v w))

/-- Sketch geometry objects, as constructed by the macro
(`Part.LineSegment`, `Part.Circle` (its plane normal is always the local (0,0,1)),
`Part.ArcOfCircle` from three points, `Part.BSplineCurve` from poles/mults/knots). -/
inductive PartGeo where
  | lineSegment (p1 p2 : Vec3)
  | circle (center : Vec3) (radius : ℚ)
  | arcOfCircle (p1 pm p2 : Vec3)
  | bsplineCurve (poles : List Vec3) (knots : List ℚ) (mults : List ℕ) (degree : ℕ)
      (periodic : Bool)
deriving DecidableEq, Repr

/-- `geo.Center` for the kinds the constraint passes dispatch on
(`isinstance(geo, Part.ArcOfCircle)` / `isinstance(geo, Part.Circle)`). -/
def centerOf : PartGeo → Option Vec3
  | .arcOfCircle p1 pm p2 => some (circumcenter3 p1 pm p2)
  | .circle c _ => some c
  | _ => none

/-- `geo.Radius`.  The host computes the arc radius as the (floating point) distance
from the realized center to an arc point; that host metric is the parameter `dist`. -/
def radiusOf (dist : Vec3 → Vec3 → ℚ) : PartGeo → Option ℚ
  | .arcOfCircle p1 pm p2 => some (dist (circumcenter3 p1 pm p2) p1)
  | .circle _ r => some r
  | _ => none

/-- Whether the geometry object has `StartPoint`/`EndPoint` attributes
(line segments, arcs and B-spline curves do; full circles do not). -/
def hasEndpoints : PartGeo → Bool
  | .lineSegment _ _ => true
  | .arcOfCircle _ _ _ => true
  | .bsplineCurve _ _ _ _ _ => true
  | .circle _ _ => false

/-- `sketch.getPoint(geo, pid)`: point-ids 1/2 are the endpoints, 3 the center.
Out-of-domain queries (which the host rejects) return the origin and are never used. -/
def getPoint : PartGeo → ℕ → Vec3
  | .lineSegment p1 _, 1 => p1
  | .lineSegment _ p2, 2 => p2
  | .arcOfCircle p1 _ _, 1 => p1
  | .arcOfCircle _ _ p2, 2 => p2
  | .arcOfCircle p1 pm p2, 3 => circumcenter3 p1 pm p2
  | .circle c _, 3 => c
  | .bsplineCurve poles _ _ _ _, 1 => poles.headD Vec3.zero
  | .bsplineCurve poles _ _ _ _, 2 => poles.getLastD Vec3.zero
  | _, _ => Vec3.zero

/-- Sketcher constraints emitted by the macro.  Geometry references are `Int` because
the fixed sketch origin is addressed as geometry `-1`, point-id `1`. -/
inductive SkConstraint where
  | coincident (g1 : Int) (pt1 : ℕ) (g2 : Int) (pt2 : ℕ)
  | radius (g : Int) (value : ℚ)
  | block (g : Int)
  | distance (g : Int) (value : ℚ) (driving : Bool)
deriving DecidableEq, Repr

/-- Sketch state: ordered geometry list (with the construction-mode flag passed to
`addGeometry`) and ordered constraint list. -/
structure Sketch where
  geometry : List (PartGeo × Bool)
  constraints : List SkConstraint
deriving DecidableEq, Repr

/-- `sketch.addGeometry(geo, construction)`: appends and returns the new index. -/
def Sketch.addGeometry (s : Sketch) (g : PartGeo) (construction : Bool) : Sketch × ℕ :=
  (⟨s.geometry ++ [(g, construction)], s.constraints⟩, s.geometry.length)

/-- `sketch.addConstraint(c)` under the host-failure oracle `fail`: the host may raise
on any single call, which `fail c = true` models; otherwise the constraint is appended. -/
def addConstraintE (fail : SkConstraint → Bool) (s : Sketch) (c : SkConstraint) :
    Except String Sketch :=
  if fail c then .error "addConstraint failed"
  else .ok ⟨s.geometry, s.constraints ++ [c]⟩

/-- `sketch.setDriving(idx, b)`: flips the driving flag of the Distance constraint at
index `idx`. -/
def Sketch.setDriving (s : Sketch) (idx : ℕ) (b : Bool) : Sketch :=
  match s.constraints.get? idx with
  | some (.distance g v _) => ⟨s.geometry, s.constraints.set idx (.distance g v b)⟩
  | _ => s

/-- The no-failure oracle: every `addConstraint` call succeeds. -/
def noFail : SkConstraint → Bool := fun _ => false

/-- Rotation values produced by `create_sketch_placement`:
the identity, the 180° rotation about the X axis (`FreeCAD.Rotation((1,0,0), 180)`), or
the host's minimal rotation taking +Z to the direction of `n`
(`FreeCAD.Rotation(z_axis, normal)`, kept symbolic; `n` is stored unnormalised and
stands for its direction). -/
inductive Rot where
  | identity
  | flipX
  | fromZTo (n : Vec3)
deriving DecidableEq, Repr

/-- `create_sketch_placement` (source lines 176-186).  The source normalises the normal
(falling back to +Z when its length is ≤ 1e-6) and tests `abs(normal · z) > 0.999` on
the normalised vector; here the same test is the squared, scale-corrected
`10^6 * n.z² > 998001 * normSq n`, and the sign test `normal.z > 0` is unaffected by
normalisation. -/
def create_sketch_placement (normal center : Vec3) : Vec3 × Rot :=
  let n := if tolSq < normSq normal then normal else (⟨0, 0, 1⟩ : Vec3)
  if 998001 * normSq n < 1000000 * n.z ^ 2 then
    if 0 < n.z then (center, .identity) else (center, .flipX)
  else (center, .fromZTo n)

/-- The source's literal for 2π's factor: `3.141592653589793`. -/
def piLit : ℚ := 3141592653589793 / 1000000000000000

/-- `add_line_to_sketch` (source lines 274-280): transformed first and last vertex
points become a line segment. -/
def add_line_to_sketch (s : Sketch) (e : Edge) (inv : Vec3 → Vec3) : Sketch × ℕ :=
  s.addGeometry (.lineSegment (inv (e.vertexes.headD Vec3.zero))
    (inv (e.vertexes.getLastD Vec3.zero))) false

/-- `add_circle_to_sketch` (source lines 283-308): for a circle-curve edge, compare the
edge arc length with `2 * 3.141592653589793 * r`; within 0.01 the edge becomes a full
circle (transformed center, same radius), otherwise a three-point arc through the
transformed start point, the point at the middle of the parameter range, and the
transformed end point.  A non-circle curve has no `.Center`: the host raises
(`.error`), though the caller only dispatches circle edges here. -/
def add_circle_to_sketch (s : Sketch) (e : Edge) (inv : Vec3 → Vec3) :
    Except String (Sketch × ℕ) :=
  match e.curve with
  | .circle c _ r =>
      let centerLocal := inv c
      if |e.length - 2 * piLit * r| < 1 / 100 then
        .ok (s.addGeometry (.circle centerLocal r) false)
      else
        let vStart := inv (e.vertexes.headD Vec3.zero)
        let vEnd := inv (e.vertexes.getLastD Vec3.zero)
        let midParam := (e.paramRange.1 + e.paramRange.2) / 2
        let vMid := inv (e.valueAt midParam)
        .ok (s.addGeometry (.arcOfCircle vStart vMid vEnd) false)
  | _ => .error "edge curve is not a circle"

/-- `add_bspline_to_sketch` (source lines 311-336): transform every pole, copy knots,
multiplicities, degree and periodicity verbatim. -/
def add_bspline_to_sketch (s : Sketch) (e : Edge) (inv : Vec3 → Vec3) :
    Except String (Sketch × ℕ) :=
  match e.curve with
  | .bspline poles knots mults degree periodic =>
      .ok (s.addGeometry (.bsplineCurve (poles.map inv) knots mults degree periodic) false)
  | _ => .error "edge curve is not a B-spline"

/-- Rounding of one coordinate to 6 decimal places (`round(x, 6)`). -/
def round6 (x : ℚ) : ℚ := (round (x * 1000000) : ℤ) / 1000000

/-- Rounded coordinate key of a vertex (`(round(v.x, 6), round(v.y, 6), round(v.z, 6))`). -/
def roundKey (v : Vec3) : Vec3 := ⟨round6 v.x, round6 v.y, round6 v.z⟩

/-- One vertex-map insertion (`vertex_map.setdefault(key, []).append(entry)`): Python
dicts preserve key insertion order, so the map is an ordered association list. -/
def vmapAdd (m : List (Vec3 × List (ℕ × ℕ))) (k : Vec3) (e : ℕ × ℕ) :
    List (Vec3 × List (ℕ × ℕ)) :=
  if m.any (fun p => decide (p.1 = k)) then
    m.map (fun p => if p.1 = k then (p.1, p.2 ++ [e]) else p)
  else m ++ [(k, [e])]

/-- First half of `add_vertex_coincident_constraints` (source lines 453-477): walk the
recorded entries, skip full circles, read both realized endpoints with
`sketch.getPoint`, and group the entries by rounded coordinate key.  The bare
`sketch.Geometry[geo_idx]` lookup is outside the `try` block, so an out-of-range index
propagates (`.error`). -/
def buildVertexMap (s : Sketch) :
    List ℕ → List (Vec3 × List (ℕ × ℕ)) → Except String (List (Vec3 × List (ℕ × ℕ)))
  | [], m => .ok m
  | gi :: rest, m =>
      match s.geometry.get? gi with
      | none => .error "geometry index out of range"
      | some (g, _) =>
          if (match g with | .circle _ _ => true | _ => false) then
            buildVertexMap s rest m
          else if hasEndpoints g then
            let k1 := roundKey (getPoint g 1)
            let k2 := roundKey (getPoint g 2)
            buildVertexMap s rest (vmapAdd (vmapAdd m k1 (gi, 1)) k2 (gi, 2))
          else buildVertexMap s rest m

/-- Second half of `add_vertex_coincident_constraints` (source lines 479-492): for each
key group with more than one member, constrain the first two members; the
`addConstraint` call sits in a `try` block, so a host failure only skips that one
constraint. -/
def emitCoincident (fail : SkConstraint → Bool) (s : Sketch)
    (m : List (Vec3 × List (ℕ × ℕ))) : Sketch :=
  m.foldl (fun s p =>
    match p.2 with
    | e1 :: e2 :: _ =>
        let c := SkConstraint.coincident (e1.1 : Int) e1.2 (e2.1 : Int) e2.2
        if fail c then s else ⟨s.geometry, s.constraints ++ [c]⟩
    | _ => s) s

/-- `add_vertex_coincident_constraints` (source lines 445-494). -/
def add_vertex_coincident_constraints (fail : SkConstraint → Bool) (s : Sketch)
    (entries : List ℕ) : Except String Sketch := do
  let m ← buildVertexMap s entries []
  .ok (emitCoincident fail s m)

/-- Main loop of `add_center_construction_lines` (source lines 367-413), carrying the
current sketch and the collected construction-line indices.  No `try` block: a host
failure on any `addConstraint` propagates out of the pass. -/
def centerLinesLoop (fail : SkConstraint → Bool) :
    List ℕ → Sketch → List ℕ → Except String (Sketch × List ℕ)
  | [], s, lines => .ok (s, lines)
  | gi :: rest, s, lines =>
      match s.geometry.get? gi with
      | none => .error "geometry index out of range"
      | some (g, _) =>
          match centerOf g with
          | none => centerLinesLoop fail rest s lines
          | some c =>
              if tolSq < normSq c then
                let li := s.geometry.length
                let s1 : Sketch := ⟨s.geometry ++ [(.lineSegment c Vec3.zero, true)],
                  s.constraints⟩
                do
                  let s2 ← addConstraintE fail s1 (.coincident (li : Int) 1 (gi : Int) 3)
                  let s3 ← addConstraintE fail s2 (.coincident (li : Int) 2 (-1) 1)
                  centerLinesLoop fail rest s3 (lines ++ [li])
              else do
                let s1 ← addConstraintE fail s (.coincident (gi : Int) 3 (-1) 1)
                centerLinesLoop fail rest s1 lines

/-- `add_center_construction_lines` (source lines 357-419): run the main loop, then
block-constrain every collected construction line (all blocks strictly after the loop). -/
def add_center_construction_lines (fail : SkConstraint → Bool) (s : Sketch)
    (entries : List ℕ) : Except String Sketch := do
  let (s1, lines) ← centerLinesLoop fail entries s []
  lines.foldlM (fun s (li : ℕ) => addConstraintE fail s (.block (li : Int))) s1

/-- One iteration of the radius-locking loop (source lines 428-440). -/
def radiusStep (dist : Vec3 → Vec3 → ℚ) (fail : SkConstraint → Bool)
    (s : Sketch) (gi : ℕ) : Except String Sketch :=
  match s.geometry.get? gi with
  | none => .error "geometry index out of range"
  | some (g, _) =>
      match radiusOf dist g with
      | some r => addConstraintE fail s (.radius (gi : Int) r)
      | none => .ok s

/-- `add_radius_constraints` (source lines 422-442): every arc/circle entry gets a
Radius constraint at its realized radius.  No `try` block: a failure propagates. -/
def add_radius_constraints (dist : Vec3 → Vec3 → ℚ) (fail : SkConstraint → Bool)
    (s : Sketch) (entries : List ℕ) : Except String Sketch :=
  entries.foldlM (radiusStep dist fail) s

/-- One iteration of the reference-distancing loop (source lines 504-520). -/
def distanceStep (dist : Vec3 → Vec3 → ℚ) (fail : SkConstraint → Bool)
    (s : Sketch) (gi : ℕ) : Except String Sketch :=
  match s.geometry.get? gi with
  | none => .error "geometry index out of range"
  | some (g, _) =>
      match g with
      | .lineSegment _ _ =>
          let d := dist (getPoint g 1) (getPoint g 2)
          let c := SkConstraint.distance (gi : Int) d true
          if fail c then .error "addConstraint failed"
          else
            let s1 : Sketch := ⟨s.geometry, s.constraints ++ [c]⟩
            .ok (s1.setDriving s.constraints.length false)
      | _ => .ok s

/-- `add_line_distance_constraints` (source lines 497-522): every line-segment entry
gets a Distance constraint at its realized endpoint separation (`dist` is the host's
`distanceToPoint` metric), immediately set non-driving.  No `try` block. -/
def add_line_distance_constraints (dist : Vec3 → Vec3 → ℚ) (fail : SkConstraint → Bool)
    (s : Sketch) (entries : List ℕ) : Except String Sketch :=
  entries.foldlM (distanceStep dist fail) s

/-- `build_constraint_data` (source lines 339-354): the four ordered passes. -/
def build_constraint_data (dist : Vec3 → Vec3 → ℚ) (fail : SkConstraint → Bool)
    (s : Sketch) (entries : List ℕ) : Except String Sketch := do
  let s1 ← add_vertex_coincident_constraints fail s entries
  let s2 ← add_center_construction_lines fail s1 entries
  let s3 ← add_radius_constraints dist fail s2 entries
  add_line_distance_constraints dist fail s3 entries

/-- Host document state visible to the macro: the list of document objects.  Transaction
atomicity (abort restores the pre-transaction state) is the host capability the macro
relies on, so the failure paths of the model return the entry state unchanged. -/
structure DocState where
  objects : List String
deriving DecidableEq, Repr

/-- Host interactions of `edge_loop_to_sketch` that the transaction claims talk about. -/
inductive HostEvent where
  | printError (msg : String)
  | printMessage (msg : String)
  | openTr
  | abortTr
  | commitTr
  | criticalDialog (msg : String)
deriving DecidableEq, Repr

/-- Destination choice returned by `show_destination_dialog` (source lines 189-210). -/
inductive Choice where
  | standalone
  | newBody
  | existingBody (name : String)
deriving DecidableEq, Repr

/-- The plane fit `edge_loop_to_sketch` performs, by selection cardinality
(source lines 47-128): exactly one edge uses the single-edge fit, two or more the
multi-edge fit. -/
def edge_loop_fit (edges : List Edge) : Except FitError Plane :=
  match edges with
  | [] => .error .insufficientData
  | e0 :: rest => if rest.isEmpty then fit_plane_single e0 else fit_plane_multi (e0 :: rest)

/-- Transaction skeleton of `edge_loop_to_sketch` (source lines 35-173).  The guards
before `openTransaction` (no document, empty/cross-object selection, lines 12-37) are
summarised by the empty-edge-list guard; the sketch-building internals (geometry
re-projection, constraint passes, recompute — everything inside the `try` after the
dialog), which can raise, are summarised by `buildOk`.  Events appear in source order:
`openTransaction` before the `try` body; on any exception `abortTransaction`, then
`PrintError`, then the critical message box; on user cancellation `abortTransaction`
then an informational `PrintMessage`; on success `commitTransaction` then
`PrintMessage`. -/
def edge_loop_transaction (doc : DocState) (edges : List Edge) (dialog : Option Choice)
    (buildOk : Bool) : DocState × List HostEvent :=
  match edges with
  | [] => (doc, [.printError "Error: No valid edges selected."])
  | _ :: _ =>
      match edge_loop_fit edges with
      | .error _ =>
          (doc, [.openTr, .abortTr, .printError "Sketch creation failed",
            .criticalDialog "Sketch creation failed"])
      | .ok _ =>
          match dialog with
          | none => (doc, [.openTr, .abortTr, .printMessage "Sketch creation cancelled."])
          | some choice =>
              let bodyFound :=
                match choice with
                | .existingBody n => doc.objects.contains n
                | _ => true
              if bodyFound && buildOk then
                let newObjs :=
                  match choice with
                  | .newBody => ["Body", "Sketch"]
                  | _ => ["Sketch"]
                (⟨doc.objects ++ newObjs⟩,
                  [.openTr, .commitTr, .printMessage "Sketch created successfully."])
              else
                (doc, [.openTr, .abortTr, .printError "Sketch creation failed",
                  .criticalDialog "Sketch creation failed"])

/-- The realized center of an arc/circle geometry when it lies farther than the
tolerance from the local origin (the condition guarding construction-line creation). -/
def offCenter (g : PartGeo) : Option Vec3 :=
  match centerOf g with
  | some c => if tolSq < normSq c then some c else none
  | none => none

/-- Expected construction lines appended by the center-anchoring pass: one line from
the realized center to the origin per off-origin arc/circle entry, in entry order. -/
def specCLines (geo : List (PartGeo × Bool)) : List ℕ → List (PartGeo × Bool)
  | [] => []
  | gi :: rest =>
      match (geo.get? gi).bind (fun gb => offCenter gb.1) with
      | some c => (PartGeo.lineSegment c Vec3.zero, true) :: specCLines geo rest
      | none => specCLines geo rest

/-- Expected Coincident constraints of the center-anchoring pass, `base` being the
index the next construction line will receive: an off-origin entry contributes the
pair (line start to the entry's center point-id 3, line end to the origin `(-1, 1)`);
an at-origin entry contributes the single direct center-to-origin constraint. -/
def specCCoincs (geo : List (PartGeo × Bool)) : List ℕ → ℕ → List SkConstraint
  | [], _ => []
  | gi :: rest, base =>
      match geo.get? gi with
      | none => []
      | some (g, _) =>
          match centerOf g with
          | none => specCCoincs geo rest base
          | some c =>
              if tolSq < normSq c then
                .coincident (base : Int) 1 (gi : Int) 3 ::
                  .coincident (base : Int) 2 (-1) 1 :: specCCoincs geo rest (base + 1)
              else .coincident (gi : Int) 3 (-1) 1 :: specCCoincs geo rest base

/-- Indices of the construction lines the center-anchoring pass creates. -/
def specCLineIdxs (geo : List (PartGeo × Bool)) : List ℕ → ℕ → List ℕ
  | [], _ => []
  | gi :: rest, base =>
      match (geo.get? gi).bind (fun gb => offCenter gb.1) with
      | some _ => base :: specCLineIdxs geo rest (base + 1)
      | none => specCLineIdxs geo rest base

/-- The single Coincident constraint a vertex group yields when it has at least two
members: its first two members are joined (further members yield nothing). -/
def vGroupConstraint (p : Vec3 × List (ℕ × ℕ)) : Option SkConstraint :=
  match p.2 with
  | e1 :: e2 :: _ => some (.coincident (e1.1 : Int) e1.2 (e2.1 : Int) e2.2)
  | _ => none

/-- Expected Radius constraints: one per arc/circle entry, at the realized radius. -/
def specRadius (dist : Vec3 → Vec3 → ℚ) (geo : List (PartGeo × Bool))
    (entries : List ℕ) : List SkConstraint :=
  entries.filterMap (fun gi =>
    (geo.get? gi).bind (fun gb => (radiusOf dist gb.1).map (fun r => .radius (gi : Int) r)))

/-- Expected reference Distance constraints: one non-driving constraint per segment
entry, at the realized endpoint separation. -/
def specDist (dist : Vec3 → Vec3 → ℚ) (geo : List (PartGeo × Bool))
    (entries : List ℕ) : List SkConstraint :=
  entries.filterMap (fun gi =>
    match geo.get? gi with
    | some (.lineSegment p1 p2, _) => some (.distance (gi : Int) (dist p1 p2) false)
    | _ => none)

/-- Whether a constraint references geometry index `g` (in any role). -/
def refsGeo (g : ℕ) : SkConstraint → Bool
  | .coincident g1 _ g2 _ => decide (g1 = (g : Int)) || decide (g2 = (g : Int))
  | .radius g1 _ => decide (g1 = (g : Int))
  | .block g1 => decide (g1 = (g : Int))
  | .distance g1 _ _ => decide (g1 = (g : Int))

/-- Whether a constraint is a Radius constraint on geometry index `g`. -/
def isRadiusOn (g : ℕ) : SkConstraint → Bool
  | .radius g1 _ => decide (g1 = (g : Int))
  | _ => false

/-- Whether a constraint is a Distance constraint on geometry index `g`. -/
def isDistanceOn (g : ℕ) : SkConstraint → Bool
  | .distance g1 _ _ => decide (g1 = (g : Int))
  | _ => false

/-- Whether a constraint is a Block constraint. -/
def isBlock : SkConstraint → Bool
  | .block _ => true
  | _ => false

/-- Decidable equality of `Except` results (used to evaluate the embedded functions on
concrete inputs). -/
instance {ε α : Type} [DecidableEq ε] [DecidableEq α] : DecidableEq (Except ε α) :=
  fun a b =>
    match a, b with
    | .error e, .error f =>
        if h : e = f then isTrue (congrArg Except.error h)
        else isFalse (fun hh => h (Except.error.inj hh))
    | .ok x, .ok y =>
        if h : x = y then isTrue (congrArg Except.ok h)
        else isFalse (fun hh => h (Except.ok.inj hh))
    | .error _, .ok _ => isFalse (fun hh => Except.noConfusion hh)
    | .ok _, .error _ => isFalse (fun hh => Except.noConfusion hh)

/-- Unfolding lemma for vector subtraction (the `Sub` instance). -/
@[simp] theorem Vec3.sub_def (a b : Vec3) :
    a - b = ⟨a.x - b.x, a.y - b.y, a.z - b.z⟩ := rfl

/-- Unfolding lemma for vector addition (the `Add` instance). -/
@[simp] theorem Vec3.add_def (a b : Vec3) :
    a + b = ⟨a.x + b.x, a.y + b.y, a.z + b.z⟩ := rfl

/-- C1: for a selection of at least 2 edges, the multi-edge plane fitter gathers every
edge endpoint, deduplicates by 1e-6 tolerance, fails with the insufficient-data error
when fewer than 3 unique points remain, derives the normal by the
first-non-collinear-pair search from the first unique point (failing with the
collinearity planarity error when no pair exceeds the tolerance), fails with the
non-coplanarity planarity error when any endpoint (duplicates included) violates the
tolerance, and on success every input point lies within 1e-6 of the returned plane. -/
theorem fit_plane_multi_correct (edges : List Edge) (_h2 : 2 ≤ edges.length) :
    ((uniquePoints (allPoints edges)).length < 3 →
        fit_plane_multi edges = .error .insufficientData)
    ∧ (∀ p0 rest, uniquePoints (allPoints edges) = p0 :: rest →
        3 ≤ (uniquePoints (allPoints edges)).length →
        findNormalFrom p0 rest = none →
        fit_plane_multi edges = .error .planarityCollinear)
    ∧ (∀ p0 rest n, uniquePoints (allPoints edges) = p0 :: rest →
        3 ≤ (uniquePoints (allPoints edges)).length →
        findNormalFrom p0 rest = some n →
        ¬ (∀ pt ∈ allPoints edges, withinPlaneTol p0 n pt) →
        fit_plane_multi edges = .error .planarityNonCoplanar)
    ∧ (∀ P, fit_plane_multi edges = .ok P →
        (∃ rest, uniquePoints (allPoints edges) = P.point :: rest ∧
          findNormalFrom P.point rest = some P.normal) ∧
        ∀ pt ∈ allPoints edges, withinPlaneTol P.point P.normal pt) := by
  refine ⟨fun h => ?_, fun p0 rest hu h3 hn => ?_, fun p0 rest n hu h3 hn hbad => ?_,
    fun P hok => ?_⟩
  · simp [fit_plane_multi, h]
  · rw [hu] at h3
    simp only [fit_plane_multi, hu, hn]
    rw [if_neg (by omega)]
  · rw [hu] at h3
    have hall : (allPoints edges).all (fun pt => withinPlaneTolB p0 n pt) = false := by
      rw [← Bool.not_eq_true, List.all_eq_true]
      intro hc
      exact hbad fun pt hpt => of_decide_eq_true (hc pt hpt)
    simp only [fit_plane_multi, hu, hn]
    rw [if_neg (by omega), hall]
    rfl
  · simp only [fit_plane_multi] at hok
    split at hok
    · exact absurd hok (by simp)
    · split at hok
      · exact absurd hok (by simp)
      · rename_i uniq p0 rest hu
        split at hok
        · exact absurd hok (by simp)
        · rename_i n hn
          split at hok
          · rename_i hall
            cases hok
            refine ⟨⟨rest, hu, hn⟩, fun pt hpt => ?_⟩
            rw [List.all_eq_true] at hall
            exact of_decide_eq_true (hall pt hpt)
          · exact absurd hok (by simp)

/-- Witness for `fit_plane_multi_correct`: two concrete line edges in the XY plane,
sharing the origin; the fitter succeeds and the point (1,0,0) lies within tolerance of
the returned plane. -/
theorem fit_plane_multi_correct_witness :
    withinPlaneTol ⟨0, 0, 0⟩ ⟨0, 0, 1⟩ ⟨1, 0, 0⟩ :=
  ((fit_plane_multi_correct
      [⟨.line, [⟨0, 0, 0⟩, ⟨1, 0, 0⟩], 1, (0, 1), fun _ => Vec3.zero⟩,
       ⟨.line, [⟨0, 1, 0⟩, ⟨0, 0, 0⟩], 1, (0, 1), fun _ => Vec3.zero⟩]
      (by decide)).2.2.2 ⟨⟨0, 0, 0⟩, ⟨0, 0, 1⟩⟩
      (by norm_num [fit_plane_multi, allPoints, uniquePoints, addUnique, distSq, normSq,
        findNormalFrom, findCross, cross, withinPlaneTolB, dot, tolSq])).2
    ⟨1, 0, 0⟩ (by norm_num [allPoints])

/-- C6 (amended): for a single selected edge — a full circle yields the plane given by
its own center and axis; a B-spline with fewer than 3 poles fails with the
insufficient-data error; a B-spline with at least 3 poles runs the
first-non-collinear-pair search over pole-difference vectors from pole 0 (failing with
the collinearity planarity error when no pair exceeds the tolerance), succeeds when
every pole is within tolerance of the plane through pole 0 and fails with the
non-planarity error otherwise; every other curve kind fails with the
unsupported-geometry error. -/
theorem fit_plane_single_cases (e : Edge) :
    (∀ c ax r, e.curve = .circle c ax r → fit_plane_single e = .ok ⟨c, ax⟩)
    ∧ (∀ poles knots mults deg per, e.curve = .bspline poles knots mults deg per →
        (poles.length < 3 → fit_plane_single e = .error .insufficientData)
        ∧ (∀ p0 rest, poles = p0 :: rest → 3 ≤ poles.length →
            (findNormalFrom p0 rest = none →
              fit_plane_single e = .error .planarityCollinear)
            ∧ (∀ n, findNormalFrom p0 rest = some n →
                ((∀ p ∈ poles, withinPlaneTol p0 n p) → fit_plane_single e = .ok ⟨p0, n⟩)
                ∧ (¬ (∀ p ∈ poles, withinPlaneTol p0 n p) →
                    fit_plane_single e = .error .planarityNonCoplanar))))
    ∧ (e.curve = .line → fit_plane_single e = .error (.unsupported "Line"))
    ∧ (∀ name, e.curve = .other name → fit_plane_single e = .error (.unsupported name)) := by
  refine ⟨fun c ax r hc => ?_, fun poles knots mults deg per hc => ?_, fun hc => ?_,
    fun name hc => ?_⟩
  · simp [fit_plane_single, hc]
  · refine ⟨fun hlen => ?_, fun p0 rest hp h3 => ?_⟩
    · simp [fit_plane_single, hc, hlen]
    · rw [hp] at h3
      refine ⟨fun hn => ?_, fun n hn => ⟨fun hall => ?_, fun hbad => ?_⟩⟩
      · simp only [fit_plane_single, hc, hp, hn]
        rw [if_neg (by omega)]
      · have hall' : (p0 :: rest).all (fun p => withinPlaneTolB p0 n p) = true := by
          rw [List.all_eq_true]
          intro p hpmem
          exact decide_eq_true (hall p (hp ▸ hpmem))
        simp only [fit_plane_single, hc, hp, hn]
        rw [if_neg (by omega), hall']
        rfl
      · have hall' : (p0 :: rest).all (fun p => withinPlaneTolB p0 n p) = false := by
          rw [← Bool.not_eq_true, List.all_eq_true]
          intro hcon
          exact hbad fun p hpmem => of_decide_eq_true (hcon p (hp ▸ hpmem))
        simp only [fit_plane_single, hc, hp, hn]
        rw [if_neg (by omega), hall']
        rfl
  · simp [fit_plane_single, hc]
  · simp [fit_plane_single, hc]

/-- Counterexample to C6 as stated: a single B-spline edge whose poles
`[(0,0,0), (1,0,0)]` are collinear (the pair search finds no non-collinear pair, the
source's own criterion for collinear input), yet the fitter fails with the
insufficient-data error ("does not have enough control points"), not with a
PlanarityError. -/
theorem fit_plane_single_two_pole_cex :
    findNormalFrom ⟨0, 0, 0⟩ [⟨1, 0, 0⟩] = none
    ∧ fit_plane_single ⟨.bspline [⟨0, 0, 0⟩, ⟨1, 0, 0⟩] [0, 1] [2, 2] 1 false,
        [⟨0, 0, 0⟩, ⟨1, 0, 0⟩], 1, (0, 1), fun _ => Vec3.zero⟩ =
        .error .insufficientData
    ∧ FitError.insufficientData.isPlanarity = false := by
  refine ⟨?_, ?_, rfl⟩
  · norm_num [findNormalFrom, findCross, cross, tolSq]
  · norm_num [fit_plane_single]

/-- Witness for `fit_plane_single_cases`: a single full-circle edge yields the plane
through its center (0,0,10) with its axis (0,0,1). -/
theorem fit_plane_single_cases_witness :
    fit_plane_single ⟨.circle ⟨0, 0, 10⟩ ⟨0, 0, 1⟩ 5, [], 10 * piLit, (0, 1),
        fun _ => Vec3.zero⟩ = .ok ⟨⟨0, 0, 10⟩, ⟨0, 0, 1⟩⟩ :=
  (fit_plane_single_cases _).1 ⟨0, 0, 10⟩ ⟨0, 0, 1⟩ 5 rfl

/-- C4 (amended): the frame builder is total; a degenerate normal (length ≤ 1e-6)
defaults to global +Z and hence the identity rotation; when the (normalised) normal's
Z-component exceeds 0.999 in magnitude the rotation snaps to the identity (positive Z)
or to 180° about X (non-positive Z) — in particular an exactly parallel normal gives
the identity and an exactly anti-parallel normal gives the 180°-about-X rotation; only
outside that 0.999 cone is the rotation the host's minimal rotation taking +Z to the
normal.  All threshold tests are the squared, scale-corrected forms of the source's
normalised comparisons. -/
theorem create_sketch_placement_cases (normal center : Vec3) :
    (normSq normal ≤ tolSq → create_sketch_placement normal center = (center, .identity))
    ∧ (tolSq < normSq normal →
        (998001 * normSq normal < 1000000 * normal.z ^ 2 →
          (0 < normal.z → create_sketch_placement normal center = (center, .identity))
          ∧ (normal.z ≤ 0 → create_sketch_placement normal center = (center, .flipX)))
        ∧ (¬ 998001 * normSq normal < 1000000 * normal.z ^ 2 →
            create_sketch_placement normal center = (center, .fromZTo normal)))
    ∧ (∀ c : ℚ, 0 < c → tolSq < c ^ 2 → normal = ⟨0, 0, c⟩ →
        create_sketch_placement normal center = (center, .identity))
    ∧ (∀ c : ℚ, 0 < c → tolSq < c ^ 2 → normal = ⟨0, 0, -c⟩ →
        create_sketch_placement normal center = (center, .flipX)) := by
  have hB : tolSq < normSq normal →
      (998001 * normSq normal < 1000000 * normal.z ^ 2 →
        (0 < normal.z → create_sketch_placement normal center = (center, .identity))
        ∧ (normal.z ≤ 0 → create_sketch_placement normal center = (center, .flipX)))
      ∧ (¬ 998001 * normSq normal < 1000000 * normal.z ^ 2 →
          create_sketch_placement normal center = (center, .fromZTo normal)) := by
    intro hlen
    have hn1 : (if tolSq < normSq normal then normal else (⟨0, 0, 1⟩ : Vec3)) = normal :=
      if_pos hlen
    refine ⟨fun hcone => ⟨fun hz => ?_, fun hz => ?_⟩, fun hcone => ?_⟩
    · rw [create_sketch_placement, hn1, if_pos hcone, if_pos hz]
    · rw [create_sketch_placement, hn1, if_pos hcone, if_neg (not_lt.mpr hz)]
    · rw [create_sketch_placement, hn1, if_neg hcone]
  refine ⟨fun hdeg => ?_, hB, fun c hc hct hn => ?_, fun c hc hct hn => ?_⟩
  · have hn0 : (if tolSq < normSq normal then normal else (⟨0, 0, 1⟩ : Vec3)) =
        (⟨0, 0, 1⟩ : Vec3) := if_neg (not_lt.mpr hdeg)
    rw [create_sketch_placement, hn0]
    norm_num [normSq]
  · subst hn
    have h1 : tolSq < normSq ⟨0, 0, c⟩ := by
      simp only [normSq]; nlinarith
    have h2 : 998001 * normSq (⟨0, 0, c⟩ : Vec3) <
        1000000 * (Vec3.z ⟨0, 0, c⟩) ^ 2 := by
      simp only [normSq]; ring_nf; nlinarith [mul_pos hc hc]
    exact ((hB h1).1 h2).1 hc
  · subst hn
    have h1 : tolSq < normSq ⟨0, 0, -c⟩ := by
      simp only [normSq]; nlinarith
    have h2 : 998001 * normSq (⟨0, 0, -c⟩ : Vec3) <
        1000000 * (Vec3.z ⟨0, 0, -c⟩) ^ 2 := by
      simp only [normSq]; ring_nf; nlinarith [mul_pos hc hc]
    refine ((hB h1).1 h2).2 ?_
    show -c ≤ 0
    linarith

/-- Counterexample to C4 as stated: the normal (1,0,100) is neither parallel nor
anti-parallel to global +Z (their cross product is non-zero), yet because
|n̂ · Z| > 0.999 the builder returns the identity rotation instead of the minimal
rotation mapping +Z onto the normal. -/
theorem create_sketch_placement_cone_cex :
    create_sketch_placement ⟨1, 0, 100⟩ ⟨0, 0, 0⟩ = (⟨0, 0, 0⟩, Rot.identity)
    ∧ cross ⟨1, 0, 100⟩ ⟨0, 0, 1⟩ ≠ Vec3.zero
    ∧ Rot.identity ≠ Rot.fromZTo ⟨1, 0, 100⟩ := by
  refine ⟨?_, by norm_num [cross, Vec3.zero], by simp⟩
  norm_num [create_sketch_placement, normSq, tolSq]

/-- Witness for `create_sketch_placement_cases`: the anti-parallel unit normal
(0,0,-1) yields the 180°-about-X rotation. -/
theorem create_sketch_placement_cases_witness :
    create_sketch_placement ⟨0, 0, -1⟩ ⟨3, 4, 5⟩ = (⟨3, 4, 5⟩, Rot.flipX) :=
  (create_sketch_placement_cases ⟨0, 0, -1⟩ ⟨3, 4, 5⟩).2.2.2 1 (by norm_num)
    (by norm_num [tolSq]) (by norm_num)

/-- C7: re-projecting a circle-curve edge compares the edge arc length with
`2 * 3.141592653589793 * r` under the fixed absolute tolerance 0.01; within tolerance
the edge becomes a full-circle entry (transformed center, same radius), otherwise a
three-point arc entry through the transformed start point, the point at the midpoint
of the parameter range, and the transformed end point.  Either way the geometry is
appended at the next index. -/
theorem add_circle_to_sketch_cases (s : Sketch) (e : Edge) (inv : Vec3 → Vec3)
    (c ax : Vec3) (r : ℚ) (hc : e.curve = .circle c ax r) :
    (|e.length - 2 * piLit * r| < 1 / 100 →
      add_circle_to_sketch s e inv =
        .ok (⟨s.geometry ++ [(.circle (inv c) r, false)], s.constraints⟩,
          s.geometry.length))
    ∧ (¬ |e.length - 2 * piLit * r| < 1 / 100 →
      add_circle_to_sketch s e inv =
        .ok (⟨s.geometry ++ [(.arcOfCircle (inv (e.vertexes.headD Vec3.zero))
            (inv (e.valueAt ((e.paramRange.1 + e.paramRange.2) / 2)))
            (inv (e.vertexes.getLastD Vec3.zero)), false)], s.constraints⟩,
          s.geometry.length)) := by
  constructor
  · intro h
    simp only [add_circle_to_sketch, hc]
    rw [if_pos h]
    rfl
  · intro h
    simp only [add_circle_to_sketch, hc]
    rw [if_neg h]
    rfl

/-- Witness for `add_circle_to_sketch_cases`: an edge whose arc length is exactly
`2 * 3.141592653589793 * 1` becomes a full-circle entry at index 0 of an empty
sketch. -/
theorem add_circle_to_sketch_cases_witness :
    add_circle_to_sketch ⟨[], []⟩
        ⟨.circle ⟨2, 0, 0⟩ ⟨0, 0, 1⟩ 1, [], 2 * piLit, (0, 1), fun _ => Vec3.zero⟩ id =
      .ok (⟨[(.circle ⟨2, 0, 0⟩ 1, false)], []⟩, 0) :=
  (add_circle_to_sketch_cases ⟨[], []⟩ _ id ⟨2, 0, 0⟩ ⟨0, 0, 1⟩ 1 rfl).1
    (by norm_num)

/-- C8: the operation is transaction-bracketed — every run that opens the transaction
but does not commit it aborts it; every run that does not commit leaves the document
exactly as it was (the host transaction rollback restores it); and when the fit
succeeded and the user declines the destination dialog, the run aborts the transaction
with only an informational message (in particular no error dialog) and the document is
unchanged. -/
theorem edge_loop_transaction_atomic (doc : DocState) (edges : List Edge)
    (dialog : Option Choice) (buildOk : Bool) :
    (HostEvent.commitTr ∉ (edge_loop_transaction doc edges dialog buildOk).2 →
      (edge_loop_transaction doc edges dialog buildOk).1 = doc)
    ∧ (HostEvent.openTr ∈ (edge_loop_transaction doc edges dialog buildOk).2 →
      HostEvent.commitTr ∉ (edge_loop_transaction doc edges dialog buildOk).2 →
      HostEvent.abortTr ∈ (edge_loop_transaction doc edges dialog buildOk).2)
    ∧ (edges ≠ [] → (edge_loop_fit edges).isOk = true → dialog = none →
      (edge_loop_transaction doc edges dialog buildOk).2 =
        [.openTr, .abortTr, .printMessage "Sketch creation cancelled."]
      ∧ (∀ msg, HostEvent.criticalDialog msg ∉
          (edge_loop_transaction doc edges dialog buildOk).2)
      ∧ (edge_loop_transaction doc edges dialog buildOk).1 = doc) := by
  cases edges with
  | nil =>
      refine ⟨fun _ => rfl, fun hopen _ => ?_, fun hne _ _ => absurd rfl hne⟩
      simp [edge_loop_transaction] at hopen
  | cons e0 rest =>
      cases hfit : edge_loop_fit (e0 :: rest) with
      | error err =>
          have hred : edge_loop_transaction doc (e0 :: rest) dialog buildOk =
              (doc, [.openTr, .abortTr, .printError "Sketch creation failed",
                .criticalDialog "Sketch creation failed"]) := by
            simp [edge_loop_transaction, hfit]
          refine ⟨fun _ => by rw [hred], fun _ _ => by rw [hred]; simp,
            fun _ hok _ => ?_⟩
          simp [Except.isOk, Except.toBool] at hok
      | ok P =>
          cases dialog with
          | none =>
              have hred : edge_loop_transaction doc (e0 :: rest) none buildOk =
                  (doc, [.openTr, .abortTr,
                    .printMessage "Sketch creation cancelled."]) := by
                simp [edge_loop_transaction, hfit]
              refine ⟨fun _ => by rw [hred], fun _ _ => by rw [hred]; simp,
                fun _ _ _ => ⟨by rw [hred], fun msg => by rw [hred]; simp, by rw [hred]⟩⟩
          | some choice =>
              by_cases hgo : ((match choice with
                  | Choice.existingBody n => doc.objects.contains n
                  | _ => true) && buildOk) = true
              · have hred : edge_loop_transaction doc (e0 :: rest) (some choice) buildOk =
                    (⟨doc.objects ++ (match choice with
                        | Choice.newBody => ["Body", "Sketch"]
                        | _ => ["Sketch"])⟩,
                      [.openTr, .commitTr,
                        .printMessage "Sketch created successfully."]) := by
                  simp only [edge_loop_transaction, hfit]
                  rw [if_pos hgo]
                  cases choice <;> rfl
                refine ⟨fun hc => absurd ?_ hc, fun _ hc => absurd ?_ hc,
                  fun _ _ hd => by cases hd⟩
                · rw [hred]; simp
                · rw [hred]; simp
              · have hred : edge_loop_transaction doc (e0 :: rest) (some choice) buildOk =
                    (doc, [.openTr, .abortTr, .printError "Sketch creation failed",
                      .criticalDialog "Sketch creation failed"]) := by
                  simp only [edge_loop_transaction, hfit]
                  rw [if_neg hgo]
                exact ⟨fun _ => by rw [hred], fun _ _ => by rw [hred]; simp,
                  fun _ _ hd => by cases hd⟩

/-- Witness for `edge_loop_transaction_atomic`: a concrete single-circle selection with
the user declining the dialog produces exactly the open/abort/informational trace and
leaves the document object list unchanged. -/
theorem edge_loop_transaction_atomic_witness :
    (edge_loop_transaction ⟨["Box"]⟩
        [⟨.circle ⟨0, 0, 10⟩ ⟨0, 0, 1⟩ 5, [], 10 * piLit, (0, 1), fun _ => Vec3.zero⟩]
        none true).2 =
      [.openTr, .abortTr, .printMessage "Sketch creation cancelled."] :=
  ((edge_loop_transaction_atomic ⟨["Box"]⟩
      [⟨.circle ⟨0, 0, 10⟩ ⟨0, 0, 1⟩ 5, [], 10 * piLit, (0, 1), fun _ => Vec3.zero⟩]
      none true).2.2 (by simp) (by rfl) rfl).1

/-- Under the no-failure oracle, `addConstraint` always appends. -/
theorem addConstraintE_noFail (s : Sketch) (c : SkConstraint) :
    addConstraintE noFail s c = .ok ⟨s.geometry, s.constraints ++ [c]⟩ := rfl

/-- `emitCoincident` appends exactly the group constraints the oracle lets through,
in map order. -/
theorem emitCoincident_eq (fail : SkConstraint → Bool) :
    ∀ (m : List (Vec3 × List (ℕ × ℕ))) (s : Sketch),
      emitCoincident fail s m =
        ⟨s.geometry, s.constraints ++
          (m.filterMap vGroupConstraint).filter (fun c => !(fail c))⟩ := by
  intro m
  induction m with
  | nil => intro s; cases s; simp [emitCoincident]
  | cons p rest ih =>
      intro s
      match hp : p.2 with
      | [] =>
          have h1 : emitCoincident fail s (p :: rest) = emitCoincident fail s rest := by
            simp [emitCoincident, hp]
          rw [h1, ih]
          simp [vGroupConstraint, hp]
      | [e1] =>
          have h1 : emitCoincident fail s (p :: rest) = emitCoincident fail s rest := by
            simp [emitCoincident, hp]
          rw [h1, ih]
          simp [vGroupConstraint, hp]
      | e1 :: e2 :: tail =>
          by_cases hf : fail (.coincident (e1.1 : Int) e1.2 (e2.1 : Int) e2.2) = true
          · have h1 : emitCoincident fail s (p :: rest) = emitCoincident fail s rest := by
              simp [emitCoincident, hp, hf]
            rw [h1, ih]
            simp [vGroupConstraint, hp, hf]
          · rw [Bool.not_eq_true] at hf
            have h1 : emitCoincident fail s (p :: rest) =
                emitCoincident fail
                  ⟨s.geometry, s.constraints ++
                    [.coincident (e1.1 : Int) e1.2 (e2.1 : Int) e2.2]⟩ rest := by
              simp [emitCoincident, hp, hf]
            rw [h1, ih]
            simp [vGroupConstraint, hp, hf]

/-- Every member of `vmapAdd m k e` traces back to a member of `m` under the same key,
or is the newly inserted entry under key `k`. -/
theorem vmapAdd_members (m : List (Vec3 × List (ℕ × ℕ))) (k : Vec3) (e : ℕ × ℕ) :
    ∀ p ∈ vmapAdd m k e, ∀ x ∈ p.2,
      (∃ q ∈ m, q.1 = p.1 ∧ x ∈ q.2) ∨ (x = e ∧ p.1 = k) := by
  intro p hp x hx
  unfold vmapAdd at hp
  split at hp
  · obtain ⟨q, hq, hpq⟩ := List.mem_map.mp hp
    by_cases hqk : q.1 = k
    · rw [if_pos hqk] at hpq
      subst hpq
      rcases List.mem_append.mp hx with h | h
      · exact .inl ⟨q, hq, rfl, h⟩
      · simp only [List.mem_singleton] at h
        exact .inr ⟨h, hqk⟩
    · rw [if_neg hqk] at hpq
      subst hpq
      exact .inl ⟨q, hq, rfl, hx⟩
  · rcases List.mem_append.mp hp with h | h
    · exact .inl ⟨p, h, rfl, hx⟩
    · simp only [List.mem_singleton] at h
      subst h
      simp only [List.mem_singleton] at hx
      exact .inr ⟨hx, rfl⟩

/-- Members of `m` survive a `vmapAdd`, under the same key. -/
theorem vmapAdd_mem_mono (m : List (Vec3 × List (ℕ × ℕ))) (k : Vec3) (e : ℕ × ℕ) :
    ∀ p ∈ m, ∀ x ∈ p.2, ∃ q ∈ vmapAdd m k e, q.1 = p.1 ∧ x ∈ q.2 := by
  intro p hp x hx
  unfold vmapAdd
  split
  · refine ⟨if p.1 = k then (p.1, p.2 ++ [e]) else p, List.mem_map_of_mem _ hp, ?_⟩
    by_cases hpk : p.1 = k
    · rw [if_pos hpk]
      exact ⟨rfl, List.mem_append_left _ hx⟩
    · rw [if_neg hpk]
      exact ⟨rfl, hx⟩
  · exact ⟨p, List.mem_append_left _ hp, rfl, hx⟩

/-- The inserted entry is present in `vmapAdd m k e` under key `k`. -/
theorem vmapAdd_mem_new (m : List (Vec3 × List (ℕ × ℕ))) (k : Vec3) (e : ℕ × ℕ) :
    ∃ q ∈ vmapAdd m k e, q.1 = k ∧ e ∈ q.2 := by
  unfold vmapAdd
  split
  case isTrue hk =>
    rw [List.any_eq_true] at hk
    obtain ⟨q, hq, hqk⟩ := hk
    rw [decide_eq_true_eq] at hqk
    refine ⟨(q.1, q.2 ++ [e]), ?_, hqk, by simp⟩
    have heq : (if q.1 = k then (q.1, q.2 ++ [e]) else q) = (q.1, q.2 ++ [e]) :=
      if_pos hqk
    exact heq ▸ List.mem_map_of_mem _ hq
  case isFalse hk => exact ⟨(k, [e]), by simp, rfl, by simp⟩

/-- `buildVertexMap` succeeds whenever every recorded index is in range. -/
theorem buildVertexMap_ok (s : Sketch) :
    ∀ (entries : List ℕ) (m₀ : List (Vec3 × List (ℕ × ℕ))),
      (∀ gi ∈ entries, gi < s.geometry.length) →
      ∃ m, buildVertexMap s entries m₀ = .ok m := by
  intro entries
  induction entries with
  | nil => exact fun m₀ _ => ⟨m₀, rfl⟩
  | cons gi rest ih =>
      intro m₀ hval
      have hgi : gi < s.geometry.length := hval gi (List.mem_cons_self _ _)
      have h1 : s.geometry.get? gi = some s.geometry[gi] := by
        rw [List.get?_eq_getElem?]
        exact List.getElem?_eq_getElem hgi
      have hval' : ∀ g ∈ rest, g < s.geometry.length :=
        fun g hg => hval g (List.mem_cons_of_mem _ hg)
      rcases hgb : s.geometry[gi] with ⟨g, b⟩
      rw [hgb] at h1
      clear hgb
      cases g with
      | lineSegment p1 p2 =>
          simp only [buildVertexMap, h1, hasEndpoints]
          simp only [Bool.false_eq_true, if_false, if_true]
          exact ih _ hval'
      | circle c r =>
          simp only [buildVertexMap, h1]
          simp only [if_true]
          exact ih _ hval'
      | arcOfCircle p1 pm p2 =>
          simp only [buildVertexMap, h1, hasEndpoints]
          simp only [Bool.false_eq_true, if_false, if_true]
          exact ih _ hval'
      | bsplineCurve poles knots mults deg per =>
          simp only [buildVertexMap, h1, hasEndpoints]
          simp only [Bool.false_eq_true, if_false, if_true]
          exact ih _ hval'

/-- Every entry recorded in the finished vertex map comes from the initial map (same
key) or from a non-circle endpoint-bearing recorded geometry, with the key being the
rounded realized endpoint coordinates. -/
theorem buildVertexMap_members (s : Sketch) :
    ∀ (entries : List ℕ) (m₀ m : List (Vec3 × List (ℕ × ℕ))),
      buildVertexMap s entries m₀ = .ok m →
      ∀ p ∈ m, ∀ x ∈ p.2,
        (∃ q ∈ m₀, q.1 = p.1 ∧ x ∈ q.2) ∨
        (x.1 ∈ entries ∧ ∃ g b, s.geometry.get? x.1 = some (g, b) ∧
          (∀ c r, g ≠ .circle c r) ∧ hasEndpoints g = true ∧
          (x.2 = 1 ∨ x.2 = 2) ∧ p.1 = roundKey (getPoint g x.2)) := by
  intro entries
  induction entries with
  | nil =>
      intro m₀ m hok p hp x hx
      simp only [buildVertexMap, Except.ok.injEq] at hok
      subst hok
      exact .inl ⟨p, hp, rfl, hx⟩
  | cons gi rest ih =>
      intro m₀ m hok p hp x hx
      cases hget : s.geometry.get? gi with
      | none => rw [buildVertexMap, hget] at hok; cases hok
      | some gb =>
          rcases gb with ⟨g, b⟩
          cases g with
          | circle c r =>
              rw [buildVertexMap, hget] at hok
              simp only [if_true] at hok
              rcases ih _ _ hok p hp x hx with h | h
              · exact .inl h
              · exact .inr ⟨List.mem_cons_of_mem _ h.1, h.2⟩
          | lineSegment p1 p2 =>
              rw [buildVertexMap, hget] at hok
              simp only [Bool.false_eq_true, if_false, hasEndpoints, if_true] at hok
              rcases ih _ _ hok p hp x hx with h | h
              · obtain ⟨q, hq, hqp, hxq⟩ := h
                rcases vmapAdd_members _ _ _ q hq x hxq with h2 | h2
                · obtain ⟨q', hq', hq'q, hxq'⟩ := h2
                  rcases vmapAdd_members _ _ _ q' hq' x hxq' with h3 | h3
                  · obtain ⟨q2, hq2, hq2q, hxq2⟩ := h3
                    exact .inl ⟨q2, hq2, by rw [hq2q, hq'q, hqp], hxq2⟩
                  · right
                    obtain ⟨hx1, hk⟩ := h3
                    subst hx1
                    refine ⟨List.mem_cons_self _ _, _, b, hget,
                      fun c r h => PartGeo.noConfusion h, rfl, Or.inl rfl, ?_⟩
                    rw [← hqp, ← hq'q, hk]
                · right
                  obtain ⟨hx1, hk⟩ := h2
                  subst hx1
                  refine ⟨List.mem_cons_self _ _, _, b, hget,
                    fun c r h => PartGeo.noConfusion h, rfl, Or.inr rfl, ?_⟩
                  rw [← hqp, hk]
              · exact .inr ⟨List.mem_cons_of_mem _ h.1, h.2⟩
          | arcOfCircle p1 pm p2 =>
              rw [buildVertexMap, hget] at hok
              simp only [Bool.false_eq_true, if_false, hasEndpoints, if_true] at hok
              rcases ih _ _ hok p hp x hx with h | h
              · obtain ⟨q, hq, hqp, hxq⟩ := h
                rcases vmapAdd_members _ _ _ q hq x hxq with h2 | h2
                · obtain ⟨q', hq', hq'q, hxq'⟩ := h2
                  rcases vmapAdd_members _ _ _ q' hq' x hxq' with h3 | h3
                  · obtain ⟨q2, hq2, hq2q, hxq2⟩ := h3
                    exact .inl ⟨q2, hq2, by rw [hq2q, hq'q, hqp], hxq2⟩
                  · right
                    obtain ⟨hx1, hk⟩ := h3
                    subst hx1
                    refine ⟨List.mem_cons_self _ _, _, b, hget,
                      fun c r h => PartGeo.noConfusion h, rfl, Or.inl rfl, ?_⟩
                    rw [← hqp, ← hq'q, hk]
                · right
                  obtain ⟨hx1, hk⟩ := h2
                  subst hx1
                  refine ⟨List.mem_cons_self _ _, _, b, hget,
                    fun c r h => PartGeo.noConfusion h, rfl, Or.inr rfl, ?_⟩
                  rw [← hqp, hk]
              · exact .inr ⟨List.mem_cons_of_mem _ h.1, h.2⟩
          | bsplineCurve poles knots mults deg per =>
              rw [buildVertexMap, hget] at hok
              simp only [Bool.false_eq_true, if_false, hasEndpoints, if_true] at hok
              rcases ih _ _ hok p hp x hx with h | h
              · obtain ⟨q, hq, hqp, hxq⟩ := h
                rcases vmapAdd_members _ _ _ q hq x hxq with h2 | h2
                · obtain ⟨q', hq', hq'q, hxq'⟩ := h2
                  rcases vmapAdd_members _ _ _ q' hq' x hxq' with h3 | h3
                  · obtain ⟨q2, hq2, hq2q, hxq2⟩ := h3
                    exact .inl ⟨q2, hq2, by rw [hq2q, hq'q, hqp], hxq2⟩
                  · right
                    obtain ⟨hx1, hk⟩ := h3
                    subst hx1
                    refine ⟨List.mem_cons_self _ _, _, b, hget,
                      fun c r h => PartGeo.noConfusion h, rfl, Or.inl rfl, ?_⟩
                    rw [← hqp, ← hq'q, hk]
                · right
                  obtain ⟨hx1, hk⟩ := h2
                  subst hx1
                  refine ⟨List.mem_cons_self _ _, _, b, hget,
                    fun c r h => PartGeo.noConfusion h, rfl, Or.inr rfl, ?_⟩
                  rw [← hqp, hk]
              · exact .inr ⟨List.mem_cons_of_mem _ h.1, h.2⟩

/-- Every initial-map entry survives `buildVertexMap` (same key), and every recorded
non-circle endpoint-bearing geometry has both of its rounded realized endpoints
recorded in the finished map. -/
theorem buildVertexMap_complete (s : Sketch) :
    ∀ (entries : List ℕ) (m₀ m : List (Vec3 × List (ℕ × ℕ))),
      buildVertexMap s entries m₀ = .ok m →
      (∀ p ∈ m₀, ∀ x ∈ p.2, ∃ q ∈ m, q.1 = p.1 ∧ x ∈ q.2)
      ∧ (∀ gi ∈ entries, ∀ g b, s.geometry.get? gi = some (g, b) →
          (∀ c r, g ≠ .circle c r) → hasEndpoints g = true →
          (∃ q ∈ m, q.1 = roundKey (getPoint g 1) ∧ (gi, 1) ∈ q.2) ∧
          (∃ q ∈ m, q.1 = roundKey (getPoint g 2) ∧ (gi, 2) ∈ q.2)) := by
  intro entries
  induction entries with
  | nil =>
      intro m₀ m hok
      simp only [buildVertexMap, Except.ok.injEq] at hok
      subst hok
      exact ⟨fun p hp x hx => ⟨p, hp, rfl, hx⟩,
        fun gi hgi => absurd hgi (List.not_mem_nil _)⟩
  | cons gi rest ih =>
      intro m₀ m hok
      cases hget : s.geometry.get? gi with
      | none => rw [buildVertexMap, hget] at hok; cases hok
      | some gb =>
          rcases gb with ⟨g, b⟩
          cases g with
          | circle c r =>
              rw [buildVertexMap, hget] at hok
              simp only [if_true] at hok
              obtain ⟨hpres, hcomp⟩ := ih _ _ hok
              refine ⟨hpres, ?_⟩
              intro gi' hgi' g' b' hget' hnc hep
              rcases List.mem_cons.mp hgi' with rfl | hmem
              · rw [hget] at hget'
                injection hget' with hpair
                cases hpair
                exact absurd rfl (hnc c r)
              · exact hcomp gi' hmem g' b' hget' hnc hep
          | lineSegment p1 p2 =>
              rw [buildVertexMap, hget] at hok
              simp only [Bool.false_eq_true, if_false, hasEndpoints, if_true] at hok
              obtain ⟨hpres, hcomp⟩ := ih _ _ hok
              constructor
              · intro p hp x hx
                obtain ⟨q, hq, hqp, hxq⟩ := vmapAdd_mem_mono _ _ _ p hp x hx
                obtain ⟨q', hq', hq'q, hxq'⟩ := vmapAdd_mem_mono _ _ _ q hq x hxq
                obtain ⟨q2, hq2, hq2q, hxq2⟩ := hpres q' hq' x hxq'
                exact ⟨q2, hq2, by rw [hq2q, hq'q, hqp], hxq2⟩
              · intro gi' hgi' g' b' hget' hnc hep
                rcases List.mem_cons.mp hgi' with rfl | hmem
                · rw [hget] at hget'
                  injection hget' with hpair
                  cases hpair
                  constructor
                  · obtain ⟨q, hq, hqk, hxq⟩ := vmapAdd_mem_new m₀ _ (gi', 1)
                    obtain ⟨q', hq', hq'q, hxq'⟩ := vmapAdd_mem_mono _ _ _ q hq _ hxq
                    obtain ⟨q2, hq2, hq2q, hxq2⟩ := hpres q' hq' _ hxq'
                    exact ⟨q2, hq2, by rw [hq2q, hq'q, hqk], hxq2⟩
                  · obtain ⟨q, hq, hqk, hxq⟩ := vmapAdd_mem_new (vmapAdd m₀ _ (gi', 1)) _ (gi', 2)
                    obtain ⟨q2, hq2, hq2q, hxq2⟩ := hpres q hq _ hxq
                    exact ⟨q2, hq2, by rw [hq2q, hqk], hxq2⟩
                · exact hcomp gi' hmem g' b' hget' hnc hep
          | arcOfCircle p1 pm p2 =>
              rw [buildVertexMap, hget] at hok
              simp only [Bool.false_eq_true, if_false, hasEndpoints, if_true] at hok
              obtain ⟨hpres, hcomp⟩ := ih _ _ hok
              constructor
              · intro p hp x hx
                obtain ⟨q, hq, hqp, hxq⟩ := vmapAdd_mem_mono _ _ _ p hp x hx
                obtain ⟨q', hq', hq'q, hxq'⟩ := vmapAdd_mem_mono _ _ _ q hq x hxq
                obtain ⟨q2, hq2, hq2q, hxq2⟩ := hpres q' hq' x hxq'
                exact ⟨q2, hq2, by rw [hq2q, hq'q, hqp], hxq2⟩
              · intro gi' hgi' g' b' hget' hnc hep
                rcases List.mem_cons.mp hgi' with rfl | hmem
                · rw [hget] at hget'
                  injection hget' with hpair
                  cases hpair
                  constructor
                  · obtain ⟨q, hq, hqk, hxq⟩ := vmapAdd_mem_new m₀ _ (gi', 1)
                    obtain ⟨q', hq', hq'q, hxq'⟩ := vmapAdd_mem_mono _ _ _ q hq _ hxq
                    obtain ⟨q2, hq2, hq2q, hxq2⟩ := hpres q' hq' _ hxq'
                    exact ⟨q2, hq2, by rw [hq2q, hq'q, hqk], hxq2⟩
                  · obtain ⟨q, hq, hqk, hxq⟩ := vmapAdd_mem_new (vmapAdd m₀ _ (gi', 1)) _ (gi', 2)
                    obtain ⟨q2, hq2, hq2q, hxq2⟩ := hpres q hq _ hxq
                    exact ⟨q2, hq2, by rw [hq2q, hqk], hxq2⟩
                · exact hcomp gi' hmem g' b' hget' hnc hep
          | bsplineCurve poles knots mults deg per =>
              rw [buildVertexMap, hget] at hok
              simp only [Bool.false_eq_true, if_false, hasEndpoints, if_true] at hok
              obtain ⟨hpres, hcomp⟩ := ih _ _ hok
              constructor
              · intro p hp x hx
                obtain ⟨q, hq, hqp, hxq⟩ := vmapAdd_mem_mono _ _ _ p hp x hx
                obtain ⟨q', hq', hq'q, hxq'⟩ := vmapAdd_mem_mono _ _ _ q hq x hxq
                obtain ⟨q2, hq2, hq2q, hxq2⟩ := hpres q' hq' x hxq'
                exact ⟨q2, hq2, by rw [hq2q, hq'q, hqp], hxq2⟩
              · intro gi' hgi' g' b' hget' hnc hep
                rcases List.mem_cons.mp hgi' with rfl | hmem
                · rw [hget] at hget'
                  injection hget' with hpair
                  cases hpair
                  constructor
                  · obtain ⟨q, hq, hqk, hxq⟩ := vmapAdd_mem_new m₀ _ (gi', 1)
                    obtain ⟨q', hq', hq'q, hxq'⟩ := vmapAdd_mem_mono _ _ _ q hq _ hxq
                    obtain ⟨q2, hq2, hq2q, hxq2⟩ := hpres q' hq' _ hxq'
                    exact ⟨q2, hq2, by rw [hq2q, hq'q, hqk], hxq2⟩
                  · obtain ⟨q, hq, hqk, hxq⟩ := vmapAdd_mem_new (vmapAdd m₀ _ (gi', 1)) _ (gi', 2)
                    obtain ⟨q2, hq2, hq2q, hxq2⟩ := hpres q hq _ hxq
                    exact ⟨q2, hq2, by rw [hq2q, hqk], hxq2⟩
                · exact hcomp gi' hmem g' b' hget' hnc hep

/-- The vertex-coincidence pass, under any failure oracle, returns successfully with
exactly the surviving group constraints appended (failed ones skipped, geometry
untouched). -/
theorem add_vertex_pass_eq (fail : SkConstraint → Bool) (s : Sketch) (entries : List ℕ)
    (hval : ∀ gi ∈ entries, gi < s.geometry.length) :
    ∃ m, buildVertexMap s entries [] = .ok m ∧
      add_vertex_coincident_constraints fail s entries =
        .ok ⟨s.geometry, s.constraints ++
          (m.filterMap vGroupConstraint).filter (fun c => !(fail c))⟩ := by
  obtain ⟨m, hm⟩ := buildVertexMap_ok s entries [] hval
  refine ⟨m, hm, ?_⟩
  unfold add_vertex_coincident_constraints
  rw [hm]
  show Except.ok (emitCoincident fail s m) = _
  rw [emitCoincident_eq]

/-- C2 (amended): only the vertex-coincidence pass is resilient — whatever single
constraints the host rejects are logged and skipped and that pass still succeeds on
the remaining items; in each of the center-anchoring, radius-locking and
reference-distancing passes a failure while synthesizing one constraint propagates
and aborts the pass (and with it the whole operation), shown here on concrete
two-entry sketches whose second entry is left unprocessed. -/
theorem constraint_pass_resilience :
    (∀ (fail : SkConstraint → Bool) (s : Sketch) (entries : List ℕ),
      (∀ gi ∈ entries, gi < s.geometry.length) →
      ∃ m, buildVertexMap s entries [] = .ok m ∧
        add_vertex_coincident_constraints fail s entries =
          .ok ⟨s.geometry, s.constraints ++
            (m.filterMap vGroupConstraint).filter (fun c => !(fail c))⟩)
    ∧ add_radius_constraints (fun _ _ => 0) (fun c => decide (c = .radius 0 5))
        ⟨[(.circle ⟨1, 1, 0⟩ 5, false), (.circle ⟨2, 0, 0⟩ 7, false)], []⟩ [0, 1] =
        .error "addConstraint failed"
    ∧ add_center_construction_lines (fun c => decide (c = .coincident 2 1 0 3))
        ⟨[(.circle ⟨1, 1, 0⟩ 5, false), (.circle ⟨2, 0, 0⟩ 7, false)], []⟩ [0, 1] =
        .error "addConstraint failed"
    ∧ add_line_distance_constraints (fun _ _ => 0) (fun c => decide (c = .distance 0 0 true))
        ⟨[(.lineSegment ⟨0, 0, 0⟩ ⟨1, 0, 0⟩, false),
          (.lineSegment ⟨1, 0, 0⟩ ⟨1, 1, 0⟩, false)], []⟩ [0, 1] =
        .error "addConstraint failed" := by
  refine ⟨add_vertex_pass_eq, ?_, ?_, ?_⟩
  · norm_num [add_radius_constraints, radiusStep, List.foldlM_cons, List.foldlM_nil,
      List.get?, radiusOf, addConstraintE, bind, Except.bind]
  · norm_num [add_center_construction_lines, centerLinesLoop, List.get?, centerOf,
      normSq, tolSq, addConstraintE, bind, Except.bind]
  · norm_num [add_line_distance_constraints, distanceStep, List.foldlM_cons,
      List.foldlM_nil, List.get?, getPoint, addConstraintE, bind, Except.bind]

/-- Counterexample to C2 as stated: in the radius-locking pass, a host failure on the
first circle's Radius constraint does not merely skip that constraint — the pass
aborts with an error (the exception propagates; the second circle is never
constrained). -/
theorem add_radius_constraints_abort_cex :
    (add_radius_constraints (fun _ _ => 0) (fun c => decide (c = .radius 0 6))
      ⟨[(.circle ⟨3, 0, 0⟩ 6, false), (.circle ⟨0, 4, 0⟩ 2, false)], []⟩ [0, 1]).isOk
      = false := by
  norm_num [add_radius_constraints, radiusStep, List.foldlM_cons, List.foldlM_nil,
    List.get?, radiusOf, addConstraintE, bind, Except.bind, Except.isOk, Except.toBool]

/-- Witness for `constraint_pass_resilience`: on a sketch with two segments sharing an
endpoint, with an oracle failing the (only) shared-vertex constraint, the
vertex-coincidence pass still succeeds. -/
theorem constraint_pass_resilience_witness :
    (add_vertex_coincident_constraints (fun c => decide (c = .coincident 0 2 1 1))
      ⟨[(.lineSegment ⟨0, 0, 0⟩ ⟨1, 0, 0⟩, false),
        (.lineSegment ⟨1, 0, 0⟩ ⟨1, 1, 0⟩, false)], []⟩ [0, 1]).isOk = true := by
  obtain ⟨m, hm, heq⟩ := constraint_pass_resilience.1
    (fun c => decide (c = .coincident 0 2 1 1))
    ⟨[(.lineSegment ⟨0, 0, 0⟩ ⟨1, 0, 0⟩, false),
      (.lineSegment ⟨1, 0, 0⟩ ⟨1, 1, 0⟩, false)], []⟩ [0, 1] (by decide)
  rw [heq]
  rfl

/-- C5: the vertex-coincidence pass succeeds and appends exactly one Coincident
constraint per rounded-coordinate group with at least two members, between the first
two members of the group only (`vGroupConstraint` yields nothing for smaller groups
and ignores members beyond the first two); every group member comes from a recorded
non-circle entry with endpoints, with point-id 1 or 2, and its group key is the
6-decimal rounding of the realized coordinates read back from the created geometry
(`getPoint`); conversely both endpoints of every such entry are grouped. -/
theorem add_vertex_coincident_constraints_correct (s : Sketch) (entries : List ℕ)
    (hval : ∀ gi ∈ entries, gi < s.geometry.length) :
    ∃ m, buildVertexMap s entries [] = .ok m
      ∧ add_vertex_coincident_constraints noFail s entries =
          .ok ⟨s.geometry, s.constraints ++ m.filterMap vGroupConstraint⟩
      ∧ (∀ p ∈ m, ∀ x ∈ p.2,
          x.1 ∈ entries ∧ ∃ g b, s.geometry.get? x.1 = some (g, b) ∧
            (∀ c r, g ≠ .circle c r) ∧ hasEndpoints g = true ∧
            (x.2 = 1 ∨ x.2 = 2) ∧ p.1 = roundKey (getPoint g x.2))
      ∧ (∀ gi ∈ entries, ∀ g b, s.geometry.get? gi = some (g, b) →
          (∀ c r, g ≠ .circle c r) → hasEndpoints g = true →
          (∃ q ∈ m, q.1 = roundKey (getPoint g 1) ∧ (gi, 1) ∈ q.2) ∧
          (∃ q ∈ m, q.1 = roundKey (getPoint g 2) ∧ (gi, 2) ∈ q.2)) := by
  obtain ⟨m, hm, heq⟩ := add_vertex_pass_eq noFail s entries hval
  refine ⟨m, hm, ?_, ?_, fun gi hgi g b hget hnc hep =>
    (buildVertexMap_complete s entries [] m hm).2 gi hgi g b hget hnc hep⟩
  · rw [heq]
    have hfilter : ((m.filterMap vGroupConstraint).filter fun c => !(noFail c)) =
        m.filterMap vGroupConstraint := by
      simp [noFail]
    rw [hfilter]
  · intro p hp x hx
    rcases buildVertexMap_members s entries [] m hm p hp x hx with h | h
    · obtain ⟨q, hq, _⟩ := h
      exact absurd hq (List.not_mem_nil _)
    · exact h

/-- Witness for `add_vertex_coincident_constraints_correct`: two concrete segments
meeting at (1,0,0); the pass succeeds. -/
theorem add_vertex_coincident_constraints_correct_witness :
    (add_vertex_coincident_constraints noFail
      ⟨[(.lineSegment ⟨0, 0, 0⟩ ⟨1, 0, 0⟩, false),
        (.lineSegment ⟨1, 0, 0⟩ ⟨2, 2, 0⟩, false)], []⟩ [0, 1]).isOk = true := by
  obtain ⟨m, hm, heq, hmem, hcomp⟩ := add_vertex_coincident_constraints_correct
    ⟨[(.lineSegment ⟨0, 0, 0⟩ ⟨1, 0, 0⟩, false),
      (.lineSegment ⟨1, 0, 0⟩ ⟨2, 2, 0⟩, false)], []⟩ [0, 1] (by decide)
  rw [heq]
  rfl

/-- The main center-anchoring loop, run with the no-failure oracle over entries that
reference the stable prefix `g₀` of the sketch geometry, appends exactly the expected
construction lines, Coincident constraints and construction-line indices. -/
theorem centerLinesLoop_eq (g₀ : List (PartGeo × Bool)) :
    ∀ (entries : List ℕ) (s : Sketch) (lines : List ℕ),
      (∃ extra, s.geometry = g₀ ++ extra) →
      (∀ gi ∈ entries, gi < g₀.length) →
      centerLinesLoop noFail entries s lines =
        .ok (⟨s.geometry ++ specCLines g₀ entries,
              s.constraints ++ specCCoincs g₀ entries s.geometry.length⟩,
          lines ++ specCLineIdxs g₀ entries s.geometry.length) := by
  intro entries
  induction entries with
  | nil =>
      intro s lines _ _
      cases s
      simp [centerLinesLoop, specCLines, specCCoincs, specCLineIdxs]
  | cons gi rest ih =>
      intro s lines hpre hval
      obtain ⟨extra, hsg⟩ := hpre
      have hgi : gi < g₀.length := hval gi (List.mem_cons_self _ _)
      have hget : s.geometry.get? gi = some g₀[gi] := by
        rw [List.get?_eq_getElem?, hsg, List.getElem?_append_left hgi]
        exact List.getElem?_eq_getElem hgi
      have hget0 : g₀.get? gi = some g₀[gi] := by
        rw [List.get?_eq_getElem?]
        exact List.getElem?_eq_getElem hgi
      rcases hgb : g₀[gi] with ⟨g, b⟩
      rw [hgb] at hget hget0
      have hval' : ∀ x ∈ rest, x < g₀.length :=
        fun x hx => hval x (List.mem_cons_of_mem _ hx)
      cases hc : centerOf g with
      | none =>
          rw [centerLinesLoop, hget]
          simp only [hc]
          rw [ih s lines ⟨extra, hsg⟩ hval']
          simp only [specCLines, specCCoincs, specCLineIdxs, hget0, Option.bind,
            offCenter, hc]
      | some c =>
          by_cases htol : tolSq < normSq c
          · rw [centerLinesLoop, hget]
            simp only [hc, if_pos htol, addConstraintE_noFail, bind, Except.bind]
            refine (ih _ _ ⟨extra ++ [(.lineSegment c Vec3.zero, true)], ?_⟩ hval').trans ?_
            · simp [hsg, List.append_assoc]
            · simp only [specCLines, specCCoincs, specCLineIdxs, hget0, Option.bind,
                offCenter, hc, if_pos htol, List.length_append, List.length_cons,
                List.length_nil]
              simp [List.append_assoc]
          · rw [centerLinesLoop, hget]
            simp only [hc, if_neg htol, addConstraintE_noFail, bind, Except.bind]
            refine (ih _ _ ⟨extra, ?_⟩ hval').trans ?_
            · exact hsg
            · simp only [specCLines, specCCoincs, specCLineIdxs, hget0, Option.bind,
                offCenter, hc, if_neg htol]
              simp [List.append_assoc]

/-- Folding Block constraints over the collected line indices (no-failure oracle)
appends exactly one Block per line, in order. -/
theorem blocks_foldlM_eq :
    ∀ (lines : List ℕ) (s : Sketch),
      (lines.foldlM (fun s (li : ℕ) => addConstraintE noFail s (.block (li : Int))) s) =
        .ok ⟨s.geometry, s.constraints ++ lines.map (fun li => .block (li : Int))⟩ := by
  intro lines
  induction lines with
  | nil =>
      intro s
      cases s
      simp only [List.foldlM_nil, List.map_nil, List.append_nil]
      rfl
  | cons li rest ih =>
      intro s
      rw [List.foldlM_cons, addConstraintE_noFail]
      show rest.foldlM _ _ = _
      rw [ih]
      simp [List.append_assoc]

/-- The center-anchoring pass, under the no-failure oracle: the construction lines are
appended to the geometry, then all the coincident constraints (in entry order), then
all the Block constraints (strictly after every line and every coincident). -/
theorem add_center_construction_lines_eq (s : Sketch) (entries : List ℕ)
    (hval : ∀ gi ∈ entries, gi < s.geometry.length) :
    add_center_construction_lines noFail s entries =
      .ok ⟨s.geometry ++ specCLines s.geometry entries,
        (s.constraints ++ specCCoincs s.geometry entries s.geometry.length) ++
          (specCLineIdxs s.geometry entries s.geometry.length).map
            (fun li => .block (li : Int))⟩ := by
  unfold add_center_construction_lines
  rw [centerLinesLoop_eq s.geometry entries s [] ⟨[], (List.append_nil _).symm⟩ hval]
  show (specCLineIdxs s.geometry entries s.geometry.length).foldlM _ _ = _
  rw [blocks_foldlM_eq]

/-- The construction-line indices are consecutive, starting at `base`: one per
construction line. -/
theorem specCLineIdxs_eq_range (g₀ : List (PartGeo × Bool)) :
    ∀ (entries : List ℕ) (base : ℕ),
      specCLineIdxs g₀ entries base =
        List.range' base (specCLines g₀ entries).length := by
  intro entries
  induction entries with
  | nil => intro base; simp [specCLineIdxs, specCLines, List.range']
  | cons gi rest ih =>
      intro base
      cases hco : (g₀.get? gi).bind (fun gb => offCenter gb.1) with
      | none =>
          rw [specCLineIdxs, specCLines, hco]
          exact ih base
      | some c =>
          rw [specCLineIdxs, specCLines, hco]
          show base :: specCLineIdxs g₀ rest (base + 1) = _
          rw [ih (base + 1)]
          exact (List.range'_succ _ _ _).symm

/-- Every appended construction line is a non-exported line from a center to the
origin. -/
theorem specCLines_shape (g₀ : List (PartGeo × Bool)) :
    ∀ (entries : List ℕ), ∀ x ∈ specCLines g₀ entries,
      ∃ c, x = (.lineSegment c Vec3.zero, true) := by
  intro entries
  induction entries with
  | nil => intro x hx; exact absurd hx (List.not_mem_nil _)
  | cons gi rest ih =>
      intro x hx
      cases hco : (g₀.get? gi).bind (fun gb => offCenter gb.1) with
      | none =>
          rw [specCLines, hco] at hx
          exact ih x hx
      | some c =>
          rw [specCLines, hco] at hx
          rcases List.mem_cons.mp hx with rfl | hmem
          · exact ⟨c, rfl⟩
          · exact ih x hmem

/-- C3: the center-anchoring pass produces, per off-origin arc/circle entry, exactly
one construction line (from the realized center to the origin, construction mode) and
the two Coincident constraints (line start to the entry's center point-id 3, line end
to the origin reference (-1,1)), plus exactly one Block per created line; per
at-origin arc/circle entry exactly one direct center-to-origin Coincident constraint
and no construction line (`specCLines`/`specCCoincs` per entry); all Block constraints
come after every Coincident constraint and every construction line, one per line
index. -/
theorem add_center_construction_lines_correct (s : Sketch) (entries : List ℕ)
    (hval : ∀ gi ∈ entries, gi < s.geometry.length) :
    add_center_construction_lines noFail s entries =
      .ok ⟨s.geometry ++ specCLines s.geometry entries,
        (s.constraints ++ specCCoincs s.geometry entries s.geometry.length) ++
          (specCLineIdxs s.geometry entries s.geometry.length).map
            (fun li => .block (li : Int))⟩
    ∧ specCLineIdxs s.geometry entries s.geometry.length =
        List.range' s.geometry.length (specCLines s.geometry entries).length
    ∧ (∀ x ∈ specCLines s.geometry entries, ∃ c, x = (.lineSegment c Vec3.zero, true)) :=
  ⟨add_center_construction_lines_eq s entries hval,
    specCLineIdxs_eq_range s.geometry entries s.geometry.length,
    specCLines_shape s.geometry entries⟩

/-- Witness for `add_center_construction_lines_correct`: one off-origin circle and one
origin-centered circle; the pass appends one construction line, its two Coincidents,
the direct Coincident for the centered circle, and one final Block. -/
theorem add_center_construction_lines_correct_witness :
    add_center_construction_lines noFail
      ⟨[(.circle ⟨3, 4, 0⟩ 5, false), (.circle ⟨0, 0, 0⟩ 2, false)], []⟩ [0, 1] =
      .ok ⟨[(.circle ⟨3, 4, 0⟩ 5, false), (.circle ⟨0, 0, 0⟩ 2, false),
            (.lineSegment ⟨3, 4, 0⟩ Vec3.zero, true)],
        [.coincident 2 1 0 3, .coincident 2 2 (-1) 1, .coincident 1 3 (-1) 1,
          .block 2]⟩ := by
  rw [(add_center_construction_lines_correct
    ⟨[(.circle ⟨3, 4, 0⟩ 5, false), (.circle ⟨0, 0, 0⟩ 2, false)], []⟩ [0, 1]
    (by decide)).1]
  norm_num [specCLines, specCCoincs, specCLineIdxs, List.get?, offCenter, centerOf,
    normSq, tolSq, Vec3.zero]

/-- The radius-locking pass, under the no-failure oracle: geometry untouched, one
Radius constraint per arc/circle entry appended in entry order, at the realized
radius. -/
theorem add_radius_constraints_eq (dist : Vec3 → Vec3 → ℚ) (g₀ : List (PartGeo × Bool)) :
    ∀ (entries : List ℕ) (s : Sketch),
      (∃ extra, s.geometry = g₀ ++ extra) →
      (∀ gi ∈ entries, gi < g₀.length) →
      add_radius_constraints dist noFail s entries =
        .ok ⟨s.geometry, s.constraints ++ specRadius dist g₀ entries⟩ := by
  intro entries
  induction entries with
  | nil =>
      intro s _ _
      cases s
      simp only [add_radius_constraints, List.foldlM_nil, specRadius, List.filterMap_nil,
        List.append_nil]
      rfl
  | cons gi rest ih =>
      intro s hpre hval
      obtain ⟨extra, hsg⟩ := hpre
      have hgi : gi < g₀.length := hval gi (List.mem_cons_self _ _)
      have hget : s.geometry.get? gi = some g₀[gi] := by
        rw [List.get?_eq_getElem?, hsg, List.getElem?_append_left hgi]
        exact List.getElem?_eq_getElem hgi
      have hget0 : g₀.get? gi = some g₀[gi] := by
        rw [List.get?_eq_getElem?]
        exact List.getElem?_eq_getElem hgi
      rcases hgb : g₀[gi] with ⟨g, b⟩
      rw [hgb] at hget hget0
      have hval' : ∀ x ∈ rest, x < g₀.length :=
        fun x hx => hval x (List.mem_cons_of_mem _ hx)
      show (gi :: rest).foldlM _ _ = _
      rw [List.foldlM_cons]
      cases hrad : radiusOf dist g with
      | some r =>
          have hstep : radiusStep dist noFail s gi =
              .ok ⟨s.geometry, s.constraints ++ [.radius (gi : Int) r]⟩ := by
            unfold radiusStep
            rw [hget]
            show (match radiusOf dist g with
              | some r => addConstraintE noFail s (.radius (gi : Int) r)
              | none => Except.ok s) = _
            rw [hrad]
            exact addConstraintE_noFail s _
          rw [hstep]
          show add_radius_constraints dist noFail
            ⟨s.geometry, s.constraints ++ [.radius (gi : Int) r]⟩ rest = _
          refine (ih _ ⟨extra, ?_⟩ hval').trans ?_
          · exact hsg
          · simp only [specRadius, List.filterMap_cons, hget0, Option.bind, hrad,
              Option.map]
            simp [List.append_assoc]
      | none =>
          have hstep : radiusStep dist noFail s gi = .ok s := by
            unfold radiusStep
            rw [hget]
            show (match radiusOf dist g with
              | some r => addConstraintE noFail s (.radius (gi : Int) r)
              | none => Except.ok s) = _
            rw [hrad]
          rw [hstep]
          show add_radius_constraints dist noFail s rest = _
          refine (ih _ ⟨extra, ?_⟩ hval').trans ?_
          · exact hsg
          · simp only [specRadius, List.filterMap_cons, hget0, Option.bind, hrad,
              Option.map]

/-- Appending a driving Distance constraint and immediately `setDriving` at its index
rewrites it to the non-driving form. -/
theorem setDriving_append (g : List (PartGeo × Bool)) (cs : List SkConstraint)
    (gi : Int) (d : ℚ) (b : Bool) :
    (⟨g, cs ++ [.distance gi d true]⟩ : Sketch).setDriving cs.length b =
      ⟨g, cs ++ [.distance gi d b]⟩ := by
  unfold Sketch.setDriving
  have h1 : (cs ++ [SkConstraint.distance gi d true]).get? cs.length =
      some (.distance gi d true) := by
    rw [List.get?_eq_getElem?, List.getElem?_append_right (le_refl _)]
    simp
  rw [h1]
  have h2 : (cs ++ [SkConstraint.distance gi d true]).set cs.length
      (.distance gi d b) = cs ++ [SkConstraint.distance gi d b] := by
    rw [List.set_append_right _ _ (le_refl _)]
    simp
  show (⟨g, (cs ++ [SkConstraint.distance gi d true]).set cs.length
    (SkConstraint.distance gi d b)⟩ : Sketch) = _
  rw [h2]

/-- The reference-distancing pass, under the no-failure oracle: geometry untouched, one
non-driving Distance constraint per segment entry appended in entry order, at the
realized endpoint separation. -/
theorem add_line_distance_constraints_eq (dist : Vec3 → Vec3 → ℚ)
    (g₀ : List (PartGeo × Bool)) :
    ∀ (entries : List ℕ) (s : Sketch),
      (∃ extra, s.geometry = g₀ ++ extra) →
      (∀ gi ∈ entries, gi < g₀.length) →
      add_line_distance_constraints dist noFail s entries =
        .ok ⟨s.geometry, s.constraints ++ specDist dist g₀ entries⟩ := by
  intro entries
  induction entries with
  | nil =>
      intro s _ _
      cases s
      simp only [add_line_distance_constraints, List.foldlM_nil, specDist,
        List.filterMap_nil, List.append_nil]
      rfl
  | cons gi rest ih =>
      intro s hpre hval
      obtain ⟨extra, hsg⟩ := hpre
      have hgi : gi < g₀.length := hval gi (List.mem_cons_self _ _)
      have hget : s.geometry.get? gi = some g₀[gi] := by
        rw [List.get?_eq_getElem?, hsg, List.getElem?_append_left hgi]
        exact List.getElem?_eq_getElem hgi
      have hget0 : g₀.get? gi = some g₀[gi] := by
        rw [List.get?_eq_getElem?]
        exact List.getElem?_eq_getElem hgi
      rcases hgb : g₀[gi] with ⟨g, b⟩
      rw [hgb] at hget hget0
      have hval' : ∀ x ∈ rest, x < g₀.length :=
        fun x hx => hval x (List.mem_cons_of_mem _ hx)
      show (gi :: rest).foldlM _ _ = _
      rw [List.foldlM_cons]
      cases g with
      | lineSegment p1 p2 =>
          have hstep : distanceStep dist noFail s gi =
              .ok ⟨s.geometry, s.constraints ++
                [.distance (gi : Int) (dist p1 p2) false]⟩ := by
            unfold distanceStep
            rw [hget]
            show Except.ok ((⟨s.geometry, s.constraints ++
                [SkConstraint.distance (gi : Int) (dist p1 p2) true]⟩ : Sketch).setDriving
              s.constraints.length false) = _
            rw [setDriving_append]
          rw [hstep]
          show add_line_distance_constraints dist noFail
            ⟨s.geometry, s.constraints ++
              [.distance (gi : Int) (dist p1 p2) false]⟩ rest = _
          refine (ih _ ⟨extra, ?_⟩ hval').trans ?_
          · exact hsg
          · simp only [specDist, List.filterMap_cons, hget0]
            simp [List.append_assoc]
      | circle c r =>
          have hstep : distanceStep dist noFail s gi = .ok s := by
            unfold distanceStep
            rw [hget]
          rw [hstep]
          show add_line_distance_constraints dist noFail s rest = _
          refine (ih _ ⟨extra, ?_⟩ hval').trans ?_
          · exact hsg
          · simp only [specDist, List.filterMap_cons, hget0]
      | arcOfCircle p1 pm p2 =>
          have hstep : distanceStep dist noFail s gi = .ok s := by
            unfold distanceStep
            rw [hget]
          rw [hstep]
          show add_line_distance_constraints dist noFail s rest = _
          refine (ih _ ⟨extra, ?_⟩ hval').trans ?_
          · exact hsg
          · simp only [specDist, List.filterMap_cons, hget0]
      | bsplineCurve poles knots mults deg per =>
          have hstep : distanceStep dist noFail s gi = .ok s := by
            unfold distanceStep
            rw [hget]
          rw [hstep]
          show add_line_distance_constraints dist noFail s rest = _
          refine (ih _ ⟨extra, ?_⟩ hval').trans ?_
          · exact hsg
          · simp only [specDist, List.filterMap_cons, hget0]

/-- A Coincident constraint between fixed references (or the origin) never mentions a
different geometry index. -/
theorem refsGeo_coincident_false (li a b' : ℕ) (pa pb : ℕ) (ha : a ≠ li)
    (hb : b' ≠ li) : refsGeo li (.coincident (a : Int) pa (b' : Int) pb) = false := by
  simp [refsGeo, Int.natCast_inj, ha, hb]

/-- A Coincident constraint against the origin reference mentions only its own
geometry index. -/
theorem refsGeo_coincident_origin_false (li a : ℕ) (pa pb : ℕ) (ha : a ≠ li) :
    refsGeo li (.coincident (a : Int) pa (-1) pb) = false := by
  simp [refsGeo, Int.natCast_inj, ha]

/-- Every constraint produced by the vertex-coincidence grouping is a Coincident
constraint between two recorded members. -/
theorem vGroup_mem (m : List (Vec3 × List (ℕ × ℕ))) :
    ∀ c ∈ m.filterMap vGroupConstraint, ∃ p ∈ m, ∃ e1 e2 tail, p.2 = e1 :: e2 :: tail ∧
      c = .coincident (e1.1 : Int) e1.2 (e2.1 : Int) e2.2 := by
  intro c hc
  obtain ⟨p, hp, hfc⟩ := List.mem_filterMap.mp hc
  unfold vGroupConstraint at hfc
  match hp2 : p.2 with
  | [] => rw [hp2] at hfc; cases hfc
  | [e1] => rw [hp2] at hfc; cases hfc
  | e1 :: e2 :: tail =>
      rw [hp2] at hfc
      injection hfc with h
      exact ⟨p, hp, e1, e2, tail, hp2, h.symm⟩

/-- Every Radius constraint emitted by the radius pass is on a recorded entry, at its
realized radius. -/
theorem specRadius_mem (dist : Vec3 → Vec3 → ℚ) (g₀ : List (PartGeo × Bool))
    (entries : List ℕ) :
    ∀ c ∈ specRadius dist g₀ entries, ∃ gi ∈ entries, ∃ g b r,
      g₀.get? gi = some (g, b) ∧ radiusOf dist g = some r ∧
      c = .radius (gi : Int) r := by
  intro c hc
  obtain ⟨gi, hgi, hfc⟩ := List.mem_filterMap.mp hc
  cases hget : g₀.get? gi with
  | none => rw [hget] at hfc; cases hfc
  | some gb =>
      rw [hget] at hfc
      cases hrad : radiusOf dist gb.1 with
      | none => simp only [Option.bind, hrad, Option.map] at hfc; cases hfc
      | some r =>
          simp only [Option.bind, hrad, Option.map] at hfc
          exact ⟨gi, hgi, gb.1, gb.2, r, hget, hrad, Option.some.inj hfc.symm⟩

/-- Every Distance constraint emitted by the distance pass is on a recorded segment
entry, non-driving, at the metric separation of its endpoints. -/
theorem specDist_mem (dist : Vec3 → Vec3 → ℚ) (g₀ : List (PartGeo × Bool))
    (entries : List ℕ) :
    ∀ c ∈ specDist dist g₀ entries, ∃ gi ∈ entries, ∃ p1 p2 b,
      g₀.get? gi = some (.lineSegment p1 p2, b) ∧
      c = .distance (gi : Int) (dist p1 p2) false := by
  intro c hc
  obtain ⟨gi, hgi, hfc⟩ := List.mem_filterMap.mp hc
  cases hget : g₀.get? gi with
  | none => rw [hget] at hfc; cases hfc
  | some gb =>
      rw [hget] at hfc
      rcases gb with ⟨g, b⟩
      cases g with
      | lineSegment p1 p2 => exact ⟨gi, hgi, p1, p2, b, hget, (Option.some.inj hfc).symm⟩
      | circle c' r => cases hfc
      | arcOfCircle p1 pm p2 => cases hfc
      | bsplineCurve poles knots mults deg per => cases hfc

/-- Every constraint emitted by the center-anchoring pass loop is a Coincident
constraint whose geometry references are construction-line indices at or above `base`
or recorded entries, the partner being the entry's center or the origin. -/
theorem specCCoincs_mem (g₀ : List (PartGeo × Bool)) :
    ∀ (entries : List ℕ) (base : ℕ), ∀ c ∈ specCCoincs g₀ entries base,
      (∃ b' gi, base ≤ b' ∧ gi ∈ entries ∧
        (c = .coincident (b' : Int) 1 (gi : Int) 3 ∨
         c = .coincident (b' : Int) 2 (-1) 1)) ∨
      (∃ gi ∈ entries, c = .coincident (gi : Int) 3 (-1) 1) := by
  intro entries
  induction entries with
  | nil => intro base c hc; exact absurd hc (List.not_mem_nil _)
  | cons gi rest ih =>
      intro base c hc
      cases hget : g₀.get? gi with
      | none =>
          rw [specCCoincs, hget] at hc
          exact absurd hc (List.not_mem_nil _)
      | some gb =>
          rcases gb with ⟨g, b⟩
          have hred : specCCoincs g₀ (gi :: rest) base =
              (match centerOf g with
               | none => specCCoincs g₀ rest base
               | some ctr =>
                  if tolSq < normSq ctr then
                    .coincident (base : Int) 1 (gi : Int) 3 ::
                      .coincident (base : Int) 2 (-1) 1 :: specCCoincs g₀ rest (base + 1)
                  else .coincident (gi : Int) 3 (-1) 1 :: specCCoincs g₀ rest base) := by
            rw [specCCoincs, hget]
          cases hcen : centerOf g with
          | none =>
              simp only [hcen] at hred
              rw [hred] at hc
              rcases ih base c hc with ⟨b', gi', hb', hgi', hor⟩ | ⟨gi', hgi', hor⟩
              · exact .inl ⟨b', gi', hb', List.mem_cons_of_mem _ hgi', hor⟩
              · exact .inr ⟨gi', List.mem_cons_of_mem _ hgi', hor⟩
          | some ctr =>
              simp only [hcen] at hred
              rw [hred] at hc
              by_cases htol : tolSq < normSq ctr
              · rw [if_pos htol] at hc
                rcases List.mem_cons.mp hc with rfl | hc2
                · exact .inl ⟨base, gi, le_refl _, List.mem_cons_self _ _, .inl rfl⟩
                · rcases List.mem_cons.mp hc2 with rfl | hc3
                  · exact .inl ⟨base, gi, le_refl _, List.mem_cons_self _ _, .inr rfl⟩
                  · rcases ih (base + 1) c hc3 with ⟨b', gi', hb', hgi', hor⟩ |
                      ⟨gi', hgi', hor⟩
                    · exact .inl ⟨b', gi', by omega, List.mem_cons_of_mem _ hgi', hor⟩
                    · exact .inr ⟨gi', List.mem_cons_of_mem _ hgi', hor⟩
              · rw [if_neg htol] at hc
                rcases List.mem_cons.mp hc with rfl | hc2
                · exact .inr ⟨gi, List.mem_cons_self _ _, rfl⟩
                · rcases ih base c hc2 with ⟨b', gi', hb', hgi', hor⟩ | ⟨gi', hgi', hor⟩
                  · exact .inl ⟨b', gi', hb', List.mem_cons_of_mem _ hgi', hor⟩
                  · exact .inr ⟨gi', List.mem_cons_of_mem _ hgi', hor⟩

/-- Filtering away a predicate that no produced element satisfies. -/
theorem filterMap_filter_nil (f : ℕ → Option SkConstraint) (pr : SkConstraint → Bool)
    (l : List ℕ) (h : ∀ gj ∈ l, ∀ c, f gj = some c → pr c = false) :
    (l.filterMap f).filter pr = [] := by
  rw [List.filter_eq_nil_iff]
  intro c hc
  obtain ⟨gj, hgj, hfc⟩ := List.mem_filterMap.mp hc
  rw [h gj hgj c hfc]
  exact Bool.false_ne_true

/-- In a duplicate-free index list, exactly one produced element satisfies the
predicate: the one produced at the matching index. -/
theorem filterMap_filter_unique (f : ℕ → Option SkConstraint)
    (pr : SkConstraint → Bool) :
    ∀ (l : List ℕ) (gi : ℕ) (cg : SkConstraint), l.Nodup → gi ∈ l →
      f gi = some cg → pr cg = true →
      (∀ gj ∈ l, gj ≠ gi → ∀ c, f gj = some c → pr c = false) →
      (l.filterMap f).filter pr = [cg] := by
  intro l
  induction l with
  | nil => intro gi cg _ h; cases h
  | cons gj rest ih =>
      intro gi cg hnd hmem hf hpr hothers
      obtain ⟨hnotin, hndr⟩ := List.nodup_cons.mp hnd
      rcases List.mem_cons.mp hmem with rfl | hmemr
      · rw [List.filterMap_cons, hf, List.filter_cons, if_pos hpr]
        rw [filterMap_filter_nil f pr rest]
        intro gj' hgj' c hfc
        exact hothers gj' (List.mem_cons_of_mem _ hgj')
          (fun h => hnotin (h ▸ hgj')) c hfc
      · have hne : gj ≠ gi := fun h => hnotin (h ▸ hmemr)
        rw [List.filterMap_cons]
        have hrec := ih gi cg hndr hmemr hf hpr
          (fun gj' hgj' hne' c hfc =>
            hothers gj' (List.mem_cons_of_mem _ hgj') hne' c hfc)
        cases hfj : f gj with
        | none => exact hrec
        | some c =>
            rw [List.filter_cons,
              if_neg (by rw [hothers gj (List.mem_cons_self _ _) hne c hfj]; simp)]
            exact hrec

/-- Filtering the center-pass Coincident constraints by a construction-line index:
when `li` is one of the created line indices the filter yields exactly that line's two
Coincident constraints (in order, against some recorded entry), and otherwise nothing.
`base` and `li` sit at or above every recorded entry index. -/
theorem specCCoincs_filter (g₀ : List (PartGeo × Bool)) :
    ∀ (entries : List ℕ) (base li : ℕ),
      (∀ gi ∈ entries, gi < g₀.length) → g₀.length ≤ base → g₀.length ≤ li →
      (li ∈ specCLineIdxs g₀ entries base →
        ∃ gi ∈ entries, (specCCoincs g₀ entries base).filter (refsGeo li) =
          [.coincident (li : Int) 1 (gi : Int) 3, .coincident (li : Int) 2 (-1) 1])
      ∧ (li ∉ specCLineIdxs g₀ entries base →
        (specCCoincs g₀ entries base).filter (refsGeo li) = []) := by
  intro entries
  induction entries with
  | nil =>
      intro base li _ _ _
      refine ⟨fun h => absurd h (List.not_mem_nil _), fun _ => ?_⟩
      simp [specCCoincs]
  | cons gi rest ih =>
      intro base li hval hbase hli
      have hgi : gi < g₀.length := hval gi (List.mem_cons_self _ _)
      have hget0 : g₀.get? gi = some g₀[gi] := by
        rw [List.get?_eq_getElem?]
        exact List.getElem?_eq_getElem hgi
      rcases hgb : g₀[gi] with ⟨g, b⟩
      rw [hgb] at hget0
      have hval' : ∀ x ∈ rest, x < g₀.length :=
        fun x hx => hval x (List.mem_cons_of_mem _ hx)
      have hgine : gi ≠ li := by omega
      have hredC : specCCoincs g₀ (gi :: rest) base =
          (match centerOf g with
           | none => specCCoincs g₀ rest base
           | some ctr =>
              if tolSq < normSq ctr then
                .coincident (base : Int) 1 (gi : Int) 3 ::
                  .coincident (base : Int) 2 (-1) 1 :: specCCoincs g₀ rest (base + 1)
              else .coincident (gi : Int) 3 (-1) 1 :: specCCoincs g₀ rest base) := by
        rw [specCCoincs, hget0]
      have hredI : specCLineIdxs g₀ (gi :: rest) base =
          (match offCenter g with
           | some _ => base :: specCLineIdxs g₀ rest (base + 1)
           | none => specCLineIdxs g₀ rest base) := by
        rw [specCLineIdxs, hget0]
        rfl
      cases hcen : centerOf g with
      | none =>
          have hoff : offCenter g = none := by rw [offCenter, hcen]
          simp only [hcen] at hredC
          simp only [hoff] at hredI
          rw [hredC, hredI]
          refine ⟨fun hm => ?_, (ih base li hval' hbase hli).2⟩
          obtain ⟨gi', hgi', heq⟩ := (ih base li hval' hbase hli).1 hm
          exact ⟨gi', List.mem_cons_of_mem _ hgi', heq⟩
      | some c =>
          by_cases htol : tolSq < normSq c
          · have hoff : offCenter g = some c := by
              unfold offCenter
              rw [hcen]
              show (if tolSq < normSq c then some c else none) = some c
              rw [if_pos htol]
            simp only [hcen, if_pos htol] at hredC
            simp only [hoff] at hredI
            rw [hredC, hredI]
            by_cases hlib : li = base
            · subst hlib
              refine ⟨fun _ => ⟨gi, List.mem_cons_self _ _, ?_⟩,
                fun hni => absurd (List.mem_cons_self _ _) hni⟩
              rw [List.filter_cons, if_pos (by simp [refsGeo])]
              rw [List.filter_cons, if_pos (by simp [refsGeo])]
              have hni : li ∉ specCLineIdxs g₀ rest (li + 1) := by
                rw [specCLineIdxs_eq_range]
                intro hmem
                have := List.mem_range'_1.mp hmem
                omega
              rw [(ih (li + 1) li hval' (by omega) hli).2 hni]
            · have hbne : base ≠ li := fun h => hlib h.symm
              have hdrop1 : ¬ refsGeo li
                  (.coincident (base : Int) 1 (gi : Int) 3) = true := by
                rw [refsGeo_coincident_false li base gi 1 3 hbne hgine]
                exact Bool.false_ne_true
              have hdrop2 : ¬ refsGeo li
                  (.coincident (base : Int) 2 (-1) 1) = true := by
                rw [refsGeo_coincident_origin_false li base 2 1 hbne]
                exact Bool.false_ne_true
              constructor
              · intro hmem
                rcases List.mem_cons.mp hmem with h | hmem2
                · exact absurd h hlib
                · obtain ⟨gi', hgi', heq⟩ :=
                    (ih (base + 1) li hval' (by omega) hli).1 hmem2
                  refine ⟨gi', List.mem_cons_of_mem _ hgi', ?_⟩
                  rw [List.filter_cons, if_neg hdrop1, List.filter_cons, if_neg hdrop2]
                  exact heq
              · intro hni
                have hni2 : li ∉ specCLineIdxs g₀ rest (base + 1) :=
                  fun h => hni (List.mem_cons_of_mem _ h)
                rw [List.filter_cons, if_neg hdrop1, List.filter_cons, if_neg hdrop2]
                exact (ih (base + 1) li hval' (by omega) hli).2 hni2
          · have hoff : offCenter g = none := by
              unfold offCenter
              rw [hcen]
              show (if tolSq < normSq c then some c else none) = none
              rw [if_neg htol]
            simp only [hcen, if_neg htol] at hredC
            simp only [hoff] at hredI
            rw [hredC, hredI]
            have hdrop : ¬ refsGeo li (.coincident (gi : Int) 3 (-1) 1) = true := by
              rw [refsGeo_coincident_origin_false li gi 3 1 hgine]
              exact Bool.false_ne_true
            constructor
            · intro hmem
              obtain ⟨gi', hgi', heq⟩ := (ih base li hval' hbase hli).1 hmem
              refine ⟨gi', List.mem_cons_of_mem _ hgi', ?_⟩
              rw [List.filter_cons, if_neg hdrop]
              exact heq
            · intro hni
              rw [List.filter_cons, if_neg hdrop]
              exact (ih base li hval' hbase hli).2 hni

/-- Filtering the deferred Block constraints by a line index yields exactly that
line's Block when the index was collected (once, by Nodup), and nothing otherwise. -/
theorem blocks_filter (li : ℕ) :
    ∀ (idxs : List ℕ), idxs.Nodup →
      (li ∈ idxs →
        (idxs.map (fun x : ℕ => SkConstraint.block (x : Int))).filter (refsGeo li) =
          [.block (li : Int)])
      ∧ (li ∉ idxs →
        (idxs.map (fun x : ℕ => SkConstraint.block (x : Int))).filter (refsGeo li) =
          []) := by
  intro idxs
  induction idxs with
  | nil => exact fun _ => ⟨fun h => absurd h (List.not_mem_nil _), fun _ => rfl⟩
  | cons x rest ih =>
      intro hnd
      obtain ⟨hnotin, hndr⟩ := List.nodup_cons.mp hnd
      by_cases hx : x = li
      · subst hx
        refine ⟨fun _ => ?_, fun hni => absurd (List.mem_cons_self _ _) hni⟩
        rw [List.map_cons, List.filter_cons, if_pos (by simp [refsGeo])]
        rw [(ih hndr).2 hnotin]
      · have hdrop : ¬ refsGeo li (SkConstraint.block (x : Int)) = true := by
          simp [refsGeo, Int.natCast_inj, hx]
        constructor
        · intro hmem
          rcases List.mem_cons.mp hmem with h | hmem2
          · exact absurd h.symm hx
          · rw [List.map_cons, List.filter_cons, if_neg hdrop]
            exact (ih hndr).1 hmem2
        · intro hni
          rw [List.map_cons, List.filter_cons, if_neg hdrop]
          exact (ih hndr).2 fun h => hni (List.mem_cons_of_mem _ h)

/-- The four passes of `build_constraint_data` composed, under the no-failure oracle:
geometry gains exactly the construction lines; the constraint list is the vertex-group
coincidents, then the center-pass coincidents, then the Blocks, then the Radius
constraints, then the reference Distance constraints. -/
theorem build_constraint_data_eq (dist : Vec3 → Vec3 → ℚ) (s : Sketch)
    (entries : List ℕ) (hval : ∀ gi ∈ entries, gi < s.geometry.length) :
    ∃ m, buildVertexMap s entries [] = .ok m ∧
      build_constraint_data dist noFail s entries =
        .ok ⟨s.geometry ++ specCLines s.geometry entries,
          ((((s.constraints ++
              (m.filterMap vGroupConstraint).filter (fun c => !(noFail c))) ++
              specCCoincs s.geometry entries s.geometry.length) ++
              (specCLineIdxs s.geometry entries s.geometry.length).map
                (fun li : ℕ => .block (li : Int))) ++
              specRadius dist s.geometry entries) ++
              specDist dist s.geometry entries⟩ := by
  obtain ⟨m, hm, hveq⟩ := add_vertex_pass_eq noFail s entries hval
  refine ⟨m, hm, ?_⟩
  unfold build_constraint_data
  rw [hveq]
  simp only [bind, Except.bind]
  rw [add_center_construction_lines_eq
    ⟨s.geometry, s.constraints ++
      (m.filterMap vGroupConstraint).filter (fun c => !(noFail c))⟩ entries hval]
  simp only [bind, Except.bind]
  rw [add_radius_constraints_eq dist s.geometry entries
    ⟨s.geometry ++ specCLines s.geometry entries, _⟩
    ⟨specCLines s.geometry entries, rfl⟩ hval]
  simp only [bind, Except.bind]
  rw [add_line_distance_constraints_eq dist s.geometry entries
    ⟨s.geometry ++ specCLines s.geometry entries, _⟩
    ⟨specCLines s.geometry entries, rfl⟩ hval]

/-- C9: after the whole constraint pipeline (fresh sketch, no stale constraints,
duplicate-free entry list), every arc/circle entry carries exactly one Radius
constraint, whose value is exactly (hence within 1e-6 of) the entry's realized
radius, and every segment entry carries exactly one Distance constraint, marked
non-driving, at the realized separation of its two endpoints. -/
theorem build_constraint_data_radius_distance (dist : Vec3 → Vec3 → ℚ) (s : Sketch)
    (entries : List ℕ) (hval : ∀ gi ∈ entries, gi < s.geometry.length)
    (hclean : s.constraints = []) (hnd : entries.Nodup) :
    ∃ s', build_constraint_data dist noFail s entries = .ok s'
      ∧ ∀ gi ∈ entries, ∀ g b, s.geometry.get? gi = some (g, b) →
          (∀ r, radiusOf dist g = some r →
            s'.constraints.filter (isRadiusOn gi) = [.radius (gi : Int) r])
          ∧ (∀ p1 p2, g = .lineSegment p1 p2 →
            s'.constraints.filter (isDistanceOn gi) =
              [.distance (gi : Int) (dist p1 p2) false]) := by
  obtain ⟨m, hm, hbuild⟩ := build_constraint_data_eq dist s entries hval
  refine ⟨_, hbuild, ?_⟩
  intro gi hgi g b hget
  have hVr : ∀ pr : SkConstraint → Bool, (∀ a b' c' d', pr (.coincident a b' c' d') = false) →
      ((m.filterMap vGroupConstraint).filter (fun c => !(noFail c))).filter pr = [] := by
    intro pr hpr
    rw [List.filter_eq_nil_iff]
    intro c hc
    obtain ⟨p, hp, e1, e2, t, hsh, rfl⟩ :=
      vGroup_mem m c (List.mem_filter.mp hc).1
    rw [hpr]
    exact Bool.false_ne_true
  have hCr : ∀ pr : SkConstraint → Bool, (∀ a b' c' d', pr (.coincident a b' c' d') = false) →
      (specCCoincs s.geometry entries s.geometry.length).filter pr = [] := by
    intro pr hpr
    rw [List.filter_eq_nil_iff]
    intro c hc
    rcases specCCoincs_mem s.geometry entries s.geometry.length c hc with
      ⟨b', gi', _, _, hor⟩ | ⟨gi', _, hor⟩
    · rcases hor with rfl | rfl <;> (rw [hpr]; exact Bool.false_ne_true)
    · rw [hor, hpr]
      exact Bool.false_ne_true
  have hBr : ∀ pr : SkConstraint → Bool, (∀ a, pr (.block a) = false) →
      ((specCLineIdxs s.geometry entries s.geometry.length).map
        (fun li : ℕ => SkConstraint.block (li : Int))).filter pr = [] := by
    intro pr hpr
    rw [List.filter_eq_nil_iff]
    intro c hc
    obtain ⟨x, hx, rfl⟩ := List.mem_map.mp hc
    rw [hpr]
    exact Bool.false_ne_true
  constructor
  · intro r hrad
    have hR : (specRadius dist s.geometry entries).filter (isRadiusOn gi) =
        [.radius (gi : Int) r] := by
      refine filterMap_filter_unique _ _ entries gi _ hnd hgi ?_ ?_ ?_
      · rw [hget]
        show (radiusOf dist g).map _ = _
        rw [hrad]
        rfl
      · simp [isRadiusOn]
      · intro gj hgj hne c hfc
        cases hgetj : s.geometry.get? gj with
        | none => rw [hgetj] at hfc; cases hfc
        | some gbj =>
            rw [hgetj] at hfc
            cases hradj : radiusOf dist gbj.1 with
            | none =>
                simp only [Option.bind, hradj, Option.map] at hfc
                cases hfc
            | some rj =>
                simp only [Option.bind, hradj, Option.map, Option.some.injEq] at hfc
                rw [← hfc]
                simp [isRadiusOn, Int.natCast_inj, hne]
    have hD : (specDist dist s.geometry entries).filter (isRadiusOn gi) = [] := by
      rw [List.filter_eq_nil_iff]
      intro c hc
      obtain ⟨gj, hgj, p1, p2, b', hgetj, rfl⟩ :=
        specDist_mem dist s.geometry entries c hc
      simp [isRadiusOn]
    simp only [hclean, List.nil_append, List.filter_append]
    rw [hVr _ (fun _ _ _ _ => rfl), hCr _ (fun _ _ _ _ => rfl), hBr _ (fun _ => rfl),
      hR, hD]
    rfl
  · intro p1 p2 hg
    subst hg
    have hD : (specDist dist s.geometry entries).filter (isDistanceOn gi) =
        [.distance (gi : Int) (dist p1 p2) false] := by
      refine filterMap_filter_unique _ _ entries gi _ hnd hgi ?_ ?_ ?_
      · rw [hget]
      · simp [isDistanceOn]
      · intro gj hgj hne c hfc
        cases hgetj : s.geometry.get? gj with
        | none => rw [hgetj] at hfc; cases hfc
        | some gbj =>
            rw [hgetj] at hfc
            rcases gbj with ⟨gj', bj⟩
            cases gj' with
            | lineSegment q1 q2 =>
                rw [← Option.some.inj hfc]
                simp [isDistanceOn, Int.natCast_inj, hne]
            | circle c' r' => cases hfc
            | arcOfCircle q1 qm q2 => cases hfc
            | bsplineCurve poles knots mults deg per => cases hfc
    have hR : (specRadius dist s.geometry entries).filter (isDistanceOn gi) = [] := by
      rw [List.filter_eq_nil_iff]
      intro c hc
      obtain ⟨gj, hgj, gj', bj, rj, hgetj, hradj, rfl⟩ :=
        specRadius_mem dist s.geometry entries c hc
      simp [isDistanceOn]
    simp only [hclean, List.nil_append, List.filter_append]
    rw [hVr _ (fun _ _ _ _ => rfl), hCr _ (fun _ _ _ _ => rfl), hBr _ (fun _ => rfl),
      hR, hD]
    rfl

/-- Witness for `build_constraint_data_radius_distance`: a circle of radius 5 and a
segment; the circle entry's Radius-constraint filter yields exactly Radius(5). -/
theorem build_constraint_data_radius_distance_witness :
    Except.map (fun s' : Sketch => s'.constraints.filter (isRadiusOn 0))
      (build_constraint_data (fun _ _ => 7) noFail
        ⟨[(.circle ⟨3, 4, 0⟩ 5, false), (.lineSegment ⟨0, 0, 0⟩ ⟨2, 0, 0⟩, false)], []⟩
        [0, 1]) = .ok [.radius 0 5] := by
  obtain ⟨s', hb, hprops⟩ := build_constraint_data_radius_distance (fun _ _ => 7)
    ⟨[(.circle ⟨3, 4, 0⟩ 5, false), (.lineSegment ⟨0, 0, 0⟩ ⟨2, 0, 0⟩, false)], []⟩
    [0, 1] (by decide) rfl (by decide)
  rw [hb]
  show Except.ok (s'.constraints.filter (isRadiusOn 0)) = _
  rw [(hprops 0 (by decide) (.circle ⟨3, 4, 0⟩ 5) false rfl).1 5 rfl]
  norm_num

/-- C10: the constraint passes iterate only the recorded primary entries, so a
construction line appended by the center pass never receives a Radius, Distance or
vertex-group constraint — after the whole pipeline, every geometry index at or beyond
the original geometry (exactly the construction lines) is a construction line from a
center to the origin whose complete constraint set is its two Coincident constraints
and its one Block constraint. -/
theorem build_constraint_data_construction_lines (dist : Vec3 → Vec3 → ℚ) (s : Sketch)
    (entries : List ℕ) (hval : ∀ gi ∈ entries, gi < s.geometry.length)
    (hclean : s.constraints = []) :
    ∃ s', build_constraint_data dist noFail s entries = .ok s'
      ∧ s'.geometry = s.geometry ++ specCLines s.geometry entries
      ∧ ∀ li, s.geometry.length ≤ li → li < s'.geometry.length →
          (∃ c, s'.geometry.get? li = some (.lineSegment c Vec3.zero, true))
          ∧ ∃ gi ∈ entries, s'.constraints.filter (refsGeo li) =
              [.coincident (li : Int) 1 (gi : Int) 3,
               .coincident (li : Int) 2 (-1) 1, .block (li : Int)] := by
  obtain ⟨m, hm, hbuild⟩ := build_constraint_data_eq dist s entries hval
  refine ⟨_, hbuild, rfl, ?_⟩
  intro li hli hlt
  have hlen : li - s.geometry.length < (specCLines s.geometry entries).length := by
    have := List.length_append s.geometry (specCLines s.geometry entries)
    simp only [Sketch.geometry] at hlt
    rw [List.length_append] at hlt
    omega
  have hmemIdx : li ∈ specCLineIdxs s.geometry entries s.geometry.length := by
    rw [specCLineIdxs_eq_range]
    exact List.mem_range'_1.mpr ⟨hli, by omega⟩
  constructor
  · obtain ⟨c, hc⟩ := specCLines_shape s.geometry entries
      (specCLines s.geometry entries)[li - s.geometry.length] (List.getElem_mem hlen)
    refine ⟨c, ?_⟩
    show (s.geometry ++ specCLines s.geometry entries).get? li = _
    rw [List.get?_eq_getElem?, List.getElem?_append_right hli,
      List.getElem?_eq_getElem hlen, hc]
  · have hV : ((m.filterMap vGroupConstraint).filter
        (fun c => !(noFail c))).filter (refsGeo li) = [] := by
      rw [List.filter_eq_nil_iff]
      intro c hc
      obtain ⟨p, hp, e1, e2, t, hsh, rfl⟩ :=
        vGroup_mem m c (List.mem_filter.mp hc).1
      have he1 : e1 ∈ p.2 := hsh ▸ List.mem_cons_self _ _
      have he2 : e2 ∈ p.2 := hsh ▸ List.mem_cons_of_mem _ (List.mem_cons_self _ _)
      rcases buildVertexMap_members s entries [] m hm p hp e1 he1 with h1 | h1
      · obtain ⟨q, hq, _⟩ := h1
        exact absurd hq (List.not_mem_nil _)
      · rcases buildVertexMap_members s entries [] m hm p hp e2 he2 with h2 | h2
        · obtain ⟨q, hq, _⟩ := h2
          exact absurd hq (List.not_mem_nil _)
        · have hb1 : e1.1 < s.geometry.length := hval _ h1.1
          have hb2 : e2.1 < s.geometry.length := hval _ h2.1
          rw [refsGeo_coincident_false li e1.1 e2.1 e1.2 e2.2 (by omega) (by omega)]
          exact Bool.false_ne_true
    obtain ⟨gi, hgi, hC⟩ := (specCCoincs_filter s.geometry entries s.geometry.length li
      hval (le_refl _) hli).1 hmemIdx
    have hndIdx : (specCLineIdxs s.geometry entries s.geometry.length).Nodup := by
      rw [specCLineIdxs_eq_range]
      exact List.nodup_range' _ _
    have hB := (blocks_filter li _ hndIdx).1 hmemIdx
    have hR : (specRadius dist s.geometry entries).filter (refsGeo li) = [] := by
      rw [List.filter_eq_nil_iff]
      intro c hc
      obtain ⟨gj, hgj, gj', bj, rj, hgetj, hradj, rfl⟩ :=
        specRadius_mem dist s.geometry entries c hc
      have : gj < s.geometry.length := hval _ hgj
      simp [refsGeo, Int.natCast_inj]
      omega
    have hD : (specDist dist s.geometry entries).filter (refsGeo li) = [] := by
      rw [List.filter_eq_nil_iff]
      intro c hc
      obtain ⟨gj, hgj, p1, p2, b', hgetj, rfl⟩ :=
        specDist_mem dist s.geometry entries c hc
      have : gj < s.geometry.length := hval _ hgj
      simp [refsGeo, Int.natCast_inj]
      omega
    refine ⟨gi, hgi, ?_⟩
    show (((((s.constraints ++ _) ++ _) ++ _) ++ _) ++ _).filter (refsGeo li) = _
    simp only [hclean, List.nil_append, List.filter_append]
    rw [hV, hC, hB, hR, hD]
    rfl

/-- Witness for `build_constraint_data_construction_lines`: one off-origin circle; the
construction line lands at index 1 and carries exactly its two Coincidents and one
Block. -/
theorem build_constraint_data_construction_lines_witness :
    Except.map (fun s' : Sketch => s'.constraints.filter (refsGeo 1))
      (build_constraint_data (fun _ _ => 0) noFail
        ⟨[(.circle ⟨3, 4, 0⟩ 5, false)], []⟩ [0]) =
      .ok [.coincident 1 1 0 3, .coincident 1 2 (-1) 1, .block 1] := by
  obtain ⟨s', hb, hgeo, hprops⟩ := build_constraint_data_construction_lines
    (fun _ _ => 0) ⟨[(.circle ⟨3, 4, 0⟩ 5, false)], []⟩ [0] (by decide) rfl
  have hL : specCLines [(.circle ⟨3, 4, 0⟩ 5, false)] [0] =
      [(.lineSegment ⟨3, 4, 0⟩ Vec3.zero, true)] := by
    norm_num [specCLines, List.get?, offCenter, centerOf, normSq, tolSq]
  obtain ⟨gi, hgi, hfil⟩ := (hprops 1 (by decide) (by
    rw [hgeo]
    show 1 < ([(PartGeo.circle ⟨3, 4, 0⟩ 5, false)] ++
      specCLines [(PartGeo.circle ⟨3, 4, 0⟩ 5, false)] [0]).length
    rw [hL]
    decide)).2
  have hgi0 : gi = 0 := by
    simpa using hgi
  subst hgi0
  rw [hb]
  show Except.ok (s'.constraints.filter (refsGeo 1)) = _
  rw [hfil]
  norm_num
